import Mathlib

/-!
# Generalised rock-paper-scissors (`game.js`)

A shallow embedding of `src/game.js`.

Conventions of the embedding:
* a JavaScript string is a `String`; the outcome labels stay the strings
  `"Win"`, `"Lose"`, `"Draw"`, `"Invalid"` the code returns;
* an array of strings is a `List String`; an array read `arr[i]` is `arr[i]?`,
  where `none` stands for `undefined`;
* the object `winningMoves` is a finite map from property keys to arrays,
  written by assignment (the last write to a key is the one read back).
-/

set_option autoImplicit false
set_option linter.unusedVariables false

namespace Game

/-! ## JavaScript primitives used by the program -/

/-- Array method `includes` on an array whose elements are compared by value. -/
def includes {α : Type} [DecidableEq α] (arr : List α) (x : α) : Bool :=
  decide (x ∈ arr)

/-- An object with string keys whose properties hold arrays of (possibly
`undefined`) strings: the shape of `winningMoves`. `none` is a missing
property (`undefined`). -/
abbrev JsObject := String → Option (List (Option String))

/-- The object literal `{}`. -/
def JsObject.empty : JsObject := fun _ => none

/-- The assignment `obj[key] = value`. -/
def JsObject.set (obj : JsObject) (key : String) (value : List (Option String)) : JsObject :=
  fun k => if k = key then some value else obj k

/-- The property key an array read is converted to: a string is itself,
`undefined` becomes the key `"undefined"`. -/
def propertyKey : Option String → String
  | some s => s
  | none => "undefined"

/-! ## Console output and session records -/

/-- One record of the array `gameHistory` (lines 189-193). -/
structure HistoryEntry where
  computerMove : String
  userMove : String
  result : String
  deriving DecidableEq

/-- What the program writes, in order: a `console.log` line, a `console.error`
line, a `console.table` of the history, or the prompt of
`readlineSync.question`. -/
inductive Output where
  | log (text : String)
  | error (text : String)
  | table (history : List HistoryEntry)
  | prompt (text : String)
  deriving DecidableEq

/-- The length of a JavaScript string: its number of UTF-16 code units. -/
def jsLength (s : String) : Nat :=
  s.toList.foldl (fun n c => n + (if c.toNat < 65536 then 1 else 2)) 0

/-- String method `repeat`. -/
def jsRepeat (s : String) (count : Nat) : String :=
  String.join (List.replicate count s)

/-- String method `padEnd` with the default fill, a space. -/
def padEnd (s : String) (targetLength : Nat) : String :=
  s ++ jsRepeat " " (targetLength - jsLength s)

/-- `new Set(arr)` for an array of strings: its distinct elements in insertion
order; the property `size` is the length. -/
def setOfArray (arr : List String) : List String :=
  arr.foldl (fun set x => if x ∈ set then set else set ++ [x]) []

/-- A `Buffer` of bytes, as returned by `crypto.randomBytes`. -/
abbrev Buffer := List (Fin 256)

/-- One lowercase hexadecimal digit. -/
def hexDigit (d : Nat) : Char :=
  if d < 10 then Char.ofNat (48 + d) else Char.ofNat (87 + d)

/-- Buffer method `toString('hex')`: two lowercase digits per byte. -/
def Buffer.toHex (b : Buffer) : String :=
  String.mk ((b.map fun x => [hexDigit (x.val / 16), hexDigit (x.val % 16)]).flatten)

/-- The library functions the program calls and does not define.
* `hmacSha256 key message` is
  `crypto.createHmac('sha256', key).update(message).digest('hex')`: the digest,
  or the message of the error thrown;
* `parseInt` is the global `parseInt` on a string, `none` standing for `NaN`. -/
structure Platform where
  hmacSha256 : String → String → Except String String
  parseInt : String → Option Int

/-! ## `GameRules` -/

namespace GameRules

/-- The inner loop of `determineWinner` (lines 40-44): starting from `[]`, for
`j = 1, …, halfMoves` push `moves[(i + j) % moves.length]`. -/
def nextMoves (moves : List String) (halfMoves i : Nat) : List (Option String) :=
  (List.range' 1 halfMoves).foldl
    (fun acc j => acc ++ [moves[(i + j) % moves.length]?]) []

/-- The outer loop of `determineWinner` (lines 35-47): starting from `{}`, for
`i = 0, …, moves.length - 1` assign `winningMoves[moves[i]] = nextMoves`. -/
def winningMoves (moves : List String) : JsObject :=
  (List.range moves.length).foldl
    (fun obj i => obj.set (propertyKey moves[i]?) (nextMoves moves (moves.length / 2) i))
    JsObject.empty

/-- The return value of `GameRules.determineWinner(userMove, computerMove, moves)`
(lines 25-54). The `console.log` of the `Invalid` branch is not part of the
return value. -/
def determineWinner (userMove computerMove : String) (moves : List String) : String :=
  if !includes moves userMove || !includes moves computerMove then
    "Invalid"
  else if userMove = computerMove then
    "Draw"
  else
    match winningMoves moves userMove with
    | some beaten => if includes beaten (some computerMove) then "Win" else "Lose"
    | none => "Lose"

/-- The console output of `GameRules.determineWinner` (line 27): one line in the
`Invalid` branch, nothing otherwise. -/
def determineWinnerLog (userMove computerMove : String) (moves : List String) :
    List Output :=
  if !includes moves userMove || !includes moves computerMove then
    [Output.log "Invalid move. Please choose a valid move."]
  else
    []

end GameRules

/-! ## `HmacCalculator` -/

namespace HmacCalculator

/-- The method `calculateHmac(key, message)` (lines 12-21): the digest, or on an
exception a `console.error` line and `null` (`none`). -/
def calculateHmac (P : Platform) (key message : String) : List Output × Option String :=
  match P.hmacSha256 key message with
  | Except.ok digest => ([], some digest)
  | Except.error msg => ([Output.error ("Error calculating HMAC: " ++ msg)], none)

end HmacCalculator

/-! ## `Statistics` -/

/-- The fields of a `Statistics` object. The counters are JavaScript numbers
holding small non-negative integers. -/
structure Statistics where
  wins : Nat
  losses : Nat
  draws : Nat
  deriving DecidableEq

namespace Statistics

/-- The constructor (lines 58-62). -/
def new : Statistics := { wins := 0, losses := 0, draws := 0 }

/-- The method `updateStatistics(result)` (lines 64-72). -/
def updateStatistics (s : Statistics) (result : String) : Statistics :=
  if result = "Win" then
    { s with wins := s.wins + 1 }
  else if result = "Lose" then
    { s with losses := s.losses + 1 }
  else if result = "Draw" then
    { s with draws := s.draws + 1 }
  else
    s

/-- The method `displayStatistics()` (lines 74-76). -/
def displayStatistics (s : Statistics) : List Output :=
  [Output.log ("Wins: " ++ toString s.wins ++ ", Losses: " ++ toString s.losses
    ++ ", Draws: " ++ toString s.draws)]

end Statistics

/-! ## `HelpTable` -/

/-- The fields of a `HelpTable` object. -/
structure HelpTable where
  moves : List String
  table : List (List String)
  deriving DecidableEq

/-- An element of the array built by `formatTable`: the horizontal line is a
string, a formatted row is an array of cells. -/
inductive TableLine where
  | text (line : String)
  | cells (row : List String)
  deriving DecidableEq

namespace HelpTable

/-- The method `generateTable` (lines 85-103) on a table whose field `moves`
is `moves`: starting from `rows = [['', ...moves]]`, for each `move` build
`row = [move]`, push for each `opponentMove` the literal `'Draw'` when the two
are equal and the result of `determineWinner` otherwise, then push `row` to
`rows`. (The local `headerRow` of line 86 is never used.) -/
def generateTable (moves : List String) : List (List String) :=
  moves.foldl
    (fun rows move =>
      rows ++ [moves.foldl
        (fun row opponentMove =>
          if move = opponentMove then
            row ++ ["Draw"]
          else
            row ++ [GameRules.determineWinner move opponentMove moves])
        [move]])
    [("" :: moves)]

/-- The console output of `generateTable`: what its calls of `determineWinner`
write. -/
def generateTableLog (moves : List String) : List Output :=
  moves.foldl
    (fun out move =>
      moves.foldl
        (fun out opponentMove =>
          if move = opponentMove then
            out
          else
            out ++ GameRules.determineWinnerLog move opponentMove moves)
        out)
    []

/-- The constructor (lines 80-83). -/
def new (moves : List String) : HelpTable :=
  { moves := moves, table := generateTable moves }

/-- Data cell `(i, j)` of a table: `rows[i + 1][j + 1]`. -/
def cell (rows : List (List String)) (i j : Nat) : Option String :=
  match rows[i + 1]? with
  | some row => row[j + 1]?
  | none => none

/-- The method `formatTableRow(row, colWidth)` (lines 127-129). -/
def formatTableRow (row : List String) (colWidth : Nat) : List String :=
  row.map (fun cell => padEnd cell colWidth)

/-- The method `formatTable()` (lines 116-125). `Math.max` is taken over the
lengths of the moves, a non-empty list for every table `Main` builds. -/
def formatTable (t : HelpTable) : List TableLine :=
  let colWidth := (t.moves.map jsLength).foldl max 0 + 2
  let horizontalLine := jsRepeat ("+" ++ jsRepeat "-" colWidth) (t.moves.length + 1) ++ "+"
  [TableLine.text horizontalLine]
    ++ t.table.map (fun row => TableLine.cells (formatTableRow row colWidth))
    ++ [TableLine.text horizontalLine]

/-- The method `displayTable()` (lines 105-112): only the elements that are
non-empty arrays are printed, joined by `' | '`. -/
def displayTable (t : HelpTable) : List Output :=
  t.formatTable.foldl
    (fun out row =>
      match row with
      | TableLine.cells cells =>
        if cells.length > 0 then out ++ [Output.log (" | ".intercalate cells)] else out
      | TableLine.text _ => out)
    []

end HelpTable

/-! ## `Main` -/

/-- What one iteration of the loop of `Main.main` takes from outside: the bytes
returned by `KeyGenerator.generateKey()`, the value of
`Math.floor(Math.random() * moves.length)` (an index below `moves.length`, as
`Math.random()` is in `[0, 1)`), and the line typed at the prompt. -/
structure Turn (n : Nat) where
  key : Buffer
  draw : Fin n
  input : String

/-- The variables of `Main.main` that live across iterations, with the number
of iterations begun (each one calls `KeyGenerator.generateKey()` once). -/
structure Session where
  helpTable : HelpTable
  statistics : Statistics
  gameHistory : List HistoryEntry
  rounds : Nat
  deriving DecidableEq

/-- How far the process got: `process.exit(code)` was called, `main` returned
after `break`, or the loop is still running after the turns supplied. -/
inductive Status where
  | exited (code : Nat)
  | returned
  | running
  deriving DecidableEq

/-- The observable result of one iteration of the loop. -/
structure RoundResult where
  output : List Output
  session : Session
  stop : Bool

/-- The observable result of a run of the loop or of `Main.main`. `session` is
`none` as long as line 143 has not been reached. -/
structure Run where
  output : List Output
  status : Status
  session : Option Session
  deriving DecidableEq

namespace Main

/-- The text `console.log` prints for the value of `hmac`. -/
def showHmac : Option String → String
  | some digest => digest
  | none => "null"

/-- Lines 149-160: key, computer move, commitment, menu and prompt. -/
def roundMenu (P : Platform) (moves : List String) (turn : Turn moves.length) :
    List Output :=
  let hmacKey := turn.key
  let computerMove := moves.get turn.draw
  let hmacKeyString := Buffer.toHex hmacKey
  let hmac := HmacCalculator.calculateHmac P hmacKeyString computerMove
  hmac.1
    ++ [Output.log ("\nHMAC: " ++ showHmac hmac.2)]
    ++ moves.enum.map (fun im => Output.log (toString (im.1 + 1) ++ " - " ++ im.2))
    ++ [Output.log "0 - exit", Output.log "? - help", Output.log "! - history game",
        Output.prompt "Enter your move: "]

/-- One iteration of the loop (lines 149-194). `stop` is the `break` of line
163; every other path goes on to the next iteration. -/
def round (P : Platform) (moves : List String) (turn : Turn moves.length)
    (s : Session) : RoundResult :=
  let computerMove := moves.get turn.draw
  let hmacKeyString := Buffer.toHex turn.key
  let menu := roundMenu P moves turn
  let s1 := { s with rounds := s.rounds + 1 }
  let userMoveIndex := turn.input
  if userMoveIndex = "0" then
    { output := menu, session := s1, stop := true }
  else if userMoveIndex = "?" then
    { output := menu ++ s.helpTable.displayTable, session := s1, stop := false }
  else if userMoveIndex = "!" then
    { output := menu ++ [Output.log "Game History:", Output.table s.gameHistory],
      session := s1, stop := false }
  else
    match P.parseInt userMoveIndex with
    | none =>
      { output := menu ++ [Output.log "Invalid move. Please choose a valid move."],
        session := s1, stop := false }
    | some parsedIndex =>
      if h : parsedIndex < 1 ∨ parsedIndex > moves.length then
        { output := menu ++ [Output.log "Invalid move. Please choose a valid move."],
          session := s1, stop := false }
      else
        let userMove := moves.get ⟨(parsedIndex - 1).toNat, by omega⟩
        let result := GameRules.determineWinner userMove computerMove moves
        let statistics := s.statistics.updateStatistics result
        { output := menu
            ++ [Output.log ("Your move: " ++ userMove),
                Output.log ("Computer move: " ++ computerMove),
                Output.log ("HMAC key: " ++ hmacKeyString)]
            ++ GameRules.determineWinnerLog userMove computerMove moves
            ++ [Output.log ("You " ++ result ++ "!")]
            ++ statistics.displayStatistics,
          session :=
            { s1 with
              statistics := statistics,
              gameHistory := s.gameHistory ++
                [{ computerMove := computerMove, userMove := userMove, result := result }] },
          stop := false }

/-- The loop `while (true)` (lines 148-195) over the turns supplied. -/
def loop (P : Platform) (moves : List String) :
    List (Turn moves.length) → Session → Run
  | [], s => { output := [], status := Status.running, session := some s }
  | turn :: rest, s =>
    let r := round P moves turn s
    if r.stop then
      { output := r.output, status := Status.returned, session := some r.session }
    else
      let run := loop P moves rest r.session
      { run with output := r.output ++ run.output }

/-- The method `Main.main()` (lines 133-196) with `process.argv.slice(2)` equal
to `args`. -/
def main (P : Platform) (args : List String) (turns : List (Turn args.length)) : Run :=
  if args.length < 3 || (setOfArray args).length != args.length then
    { output := [Output.log "Invalid input. Please provide at least 3 unique moves.",
                 Output.log "Example: node game.js Rock Paper Scissors"],
      status := Status.exited 1,
      session := none }
  else
    let moves := args
    let helpTable := HelpTable.new moves
    let run := loop P moves turns
      { helpTable := helpTable, statistics := Statistics.new, gameHistory := [], rounds := 0 }
    { run with output := HelpTable.generateTableLog moves ++ run.output }

end Main

/-! ## Notions used to state the properties -/

/-- The opponent at index `j` is among the next `floor(n / 2)` entries after
index `i` in the circular order of a catalog of length `n`. -/
def InBeats (n i j : Nat) : Prop :=
  ∃ k, 1 ≤ k ∧ k ≤ n / 2 ∧ (i + k) % n = j

/-- The beats-set of `a`: the catalog entries `b` with
`determineWinner(a, b, moves) = 'Win'`. -/
def beatsSet (a : String) (moves : List String) : Finset String :=
  moves.toFinset.filter (fun b => GameRules.determineWinner a b moves = "Win")

/-- The loses-set of `a`: the catalog entries `b` with
`determineWinner(a, b, moves) = 'Lose'`. -/
def losesSet (a : String) (moves : List String) : Finset String :=
  moves.toFinset.filter (fun b => GameRules.determineWinner a b moves = "Lose")

/-- The run of `Main.main` that rejects its arguments: the two usage lines,
`process.exit(1)`, and nothing constructed. -/
def Main.rejected : Run :=
  { output := [Output.log "Invalid input. Please provide at least 3 unique moves.",
               Output.log "Example: node game.js Rock Paper Scissors"],
    status := Status.exited 1,
    session := none }

/-- A stand-in for `parseInt` on the inputs used in concrete runs: a non-empty
string of decimal digits is its value, anything else is `NaN`. -/
def sampleParseInt (s : String) : Option Int :=
  if s.toList ≠ [] ∧ s.toList.all Char.isDigit = true then
    some (Int.ofNat (s.toList.foldl (fun n c => 10 * n + (c.toNat - 48)) 0))
  else
    none

/-- A platform for concrete runs: a stand-in digest (the key, a colon, the
message) and `sampleParseInt`. -/
def samplePlatform : Platform :=
  { hmacSha256 := fun key message => Except.ok (key ++ ":" ++ message),
    parseInt := sampleParseInt }

/-- A sample turn for a catalog of four moves: a 32-byte key, the draw 1, and
the typed line `1`. -/
def sampleTurn4 : Turn 4 :=
  { key := List.replicate 32 171, draw := 1, input := "1" }

/-- A sample turn for a catalog of three moves. -/
def sampleTurn3 : Turn 3 :=
  { key := List.replicate 32 171, draw := 1, input := "1" }

/-- The path condition of lines 162-175 under which line 177 is reached with
`parsedIndex = k`: the typed line is none of `0`, `?`, `!`, it parses to `k`,
and `1 ≤ k ≤ moves.length`. -/
def Main.Selects (P : Platform) (moves : List String) (input : String) (k : Int) : Prop :=
  input ≠ "0" ∧ input ≠ "?" ∧ input ≠ "!" ∧ P.parseInt input = some k
    ∧ 1 ≤ k ∧ k ≤ moves.length

/-- The path condition under which line 173 is reached: the typed line is none
of `0`, `?`, `!`, and it parses to `NaN`, to a number below 1 or to a number
above `moves.length`. -/
def Main.InvalidSelection (P : Platform) (moves : List String) (input : String) : Prop :=
  input ≠ "0" ∧ input ≠ "?" ∧ input ≠ "!"
    ∧ (P.parseInt input = none
        ∨ ∃ k : Int, P.parseInt input = some k ∧ (k < 1 ∨ k > moves.length))

/-- The output `out` of a round displays the commitment `commitment`: after
`console.error` lines only, its first `console.log` line is `HMAC:` followed by
`commitment`, and the menu and the prompt come after it. -/
def Main.Commits (out : List Output) (commitment : String) : Prop :=
  ∃ errors menu rest,
    (∀ o ∈ errors, ∃ t, o = Output.error t)
      ∧ (∀ o ∈ menu, ∃ t, o = Output.log t)
      ∧ out = errors ++ [Output.log ("\nHMAC: " ++ commitment)] ++ menu
          ++ [Output.prompt "Enter your move: "] ++ rest

/-- The output `out` of a round reveals `key` and `computerMove`: right after its
first prompt come the lines `Your move:`, `Computer move: computerMove` and
`HMAC key: key`. -/
def Main.Reveals (out : List Output) (key computerMove : String) : Prop :=
  ∃ shown userMove rest,
    (∀ o ∈ shown, ∀ t, o ≠ Output.prompt t)
      ∧ out = shown
          ++ [Output.prompt "Enter your move: ",
              Output.log ("Your move: " ++ userMove),
              Output.log ("Computer move: " ++ computerMove),
              Output.log ("HMAC key: " ++ key)]
          ++ rest

/-- The number of history entries whose result is `result`. -/
def countResult (result : String) (history : List HistoryEntry) : Nat :=
  (history.filter (fun e => decide (e.result = result))).length

/-- A sample turn for a catalog of three moves whose typed line, `9`, is not an
index of the catalog: an all-zero 32-byte key and the draw 0. -/
def sampleTurnInvalid : Turn 3 :=
  { key := List.replicate 32 0, draw := 0, input := "9" }

/-- The session at the start of the loop of `Main.main` (lines 143-146). -/
def Main.initialSession (moves : List String) : Session :=
  { helpTable := HelpTable.new moves, statistics := Statistics.new,
    gameHistory := [], rounds := 0 }

/-- What a round writes before its prompt (lines 152-158): the output of
`calculateHmac`, the commitment line and the menu. -/
def Main.beforePrompt (P : Platform) (moves : List String) (turn : Turn moves.length) :
    List Output :=
  (HmacCalculator.calculateHmac P (Buffer.toHex turn.key) (moves.get turn.draw)).1
    ++ [Output.log ("\nHMAC: " ++ Main.showHmac
          (HmacCalculator.calculateHmac P (Buffer.toHex turn.key) (moves.get turn.draw)).2)]
    ++ (moves.enum.map (fun im => Output.log (toString (im.1 + 1) ++ " - " ++ im.2))
        ++ [Output.log "0 - exit", Output.log "? - help", Output.log "! - history game"])

/-- The tallies `statistics` agree with the history `history`: each counter is
the number of entries with that result, and every entry has one of the three
results that are counted. -/
def Tallied (statistics : Statistics) (history : List HistoryEntry) : Prop :=
  statistics.wins = countResult "Win" history
    ∧ statistics.losses = countResult "Lose" history
    ∧ statistics.draws = countResult "Draw" history
    ∧ ∀ e ∈ history, e.result = "Win" ∨ e.result = "Lose" ∨ e.result = "Draw"

/-! ## Auxiliary facts about the loops of `determineWinner` -/

theorem foldl_push_eq_map {α β : Type} (f : α → β) (l : List α) (init : List β) :
    l.foldl (fun acc j => acc ++ [f j]) init = init ++ l.map f := by
  induction l generalizing init with
  | nil => simp
  | cons a l ih => simp [ih]

theorem nextMoves_eq_map (moves : List String) (halfMoves i : Nat) :
    GameRules.nextMoves moves halfMoves i
      = (List.range' 1 halfMoves).map (fun j => moves[(i + j) % moves.length]?) := by
  unfold GameRules.nextMoves
  rw [foldl_push_eq_map]
  simp

theorem mem_nextMoves (moves : List String) (halfMoves i : Nat) (x : Option String) :
    x ∈ GameRules.nextMoves moves halfMoves i
      ↔ ∃ j, 1 ≤ j ∧ j ≤ halfMoves ∧ moves[(i + j) % moves.length]? = x := by
  rw [nextMoves_eq_map]
  simp only [List.mem_map, List.mem_range'_1]
  constructor
  · rintro ⟨j, ⟨h1, h2⟩, h3⟩
    exact ⟨j, h1, by omega, h3⟩
  · rintro ⟨j, h1, h2, h3⟩
    exact ⟨j, ⟨h1, by omega⟩, h3⟩

theorem length_nextMoves (moves : List String) (halfMoves i : Nat) :
    (GameRules.nextMoves moves halfMoves i).length = halfMoves := by
  rw [nextMoves_eq_map]
  simp

/-- Reading back a key from an object filled by a loop of assignments: when
exactly one iteration `i` writes the key, its value is the one found. -/
theorem foldl_set_lookup (key : Nat → String) (val : Nat → List (Option String))
    (m i : Nat) (k : String) (hi : i < m) (hk : key i = k)
    (huniq : ∀ t, t < m → key t = k → t = i) :
    (List.range m).foldl (fun obj t => obj.set (key t) (val t)) JsObject.empty k
      = some (val i) := by
  induction m with
  | zero => omega
  | succ m ih =>
    rw [List.range_succ, List.foldl_append]
    simp only [List.foldl_cons, List.foldl_nil, JsObject.set]
    by_cases hkm : k = key m
    · have : m = i := huniq m (by omega) hkm.symm
      subst this
      simp [hkm]
    · rw [if_neg hkm]
      have him : i < m := by
        rcases Nat.lt_or_ge i m with h | h
        · exact h
        · have : i = m := by omega
          subst this
          exact absurd hk.symm hkm
      exact ih him (fun t ht hkt => huniq t (by omega) hkt)

theorem winningMoves_lookup (moves : List String) (hnd : moves.Nodup) (i : Nat)
    (hi : i < moves.length) :
    GameRules.winningMoves moves moves[i]
      = some (GameRules.nextMoves moves (moves.length / 2) i) := by
  unfold GameRules.winningMoves
  apply foldl_set_lookup (fun t => propertyKey moves[t]?)
    (fun t => GameRules.nextMoves moves (moves.length / 2) t) moves.length i moves[i] hi
  · simp [List.getElem?_eq_getElem hi, propertyKey]
  · intro t ht hkt
    simp only [List.getElem?_eq_getElem ht, propertyKey] at hkt
    exact (List.Nodup.getElem_inj_iff hnd).mp hkt

theorem includes_nextMoves_iff (moves : List String) (hnd : moves.Nodup) (i j : Nat)
    (hj : j < moves.length) :
    some moves[j] ∈ GameRules.nextMoves moves (moves.length / 2) i
      ↔ InBeats moves.length i j := by
  rw [mem_nextMoves]
  constructor
  · rintro ⟨k, h1, h2, h3⟩
    refine ⟨k, h1, h2, ?_⟩
    have hlt : (i + k) % moves.length < moves.length := Nat.mod_lt _ (by omega)
    rw [List.getElem?_eq_getElem hlt] at h3
    exact (List.Nodup.getElem_inj_iff hnd).mp (Option.some.inj h3)
  · rintro ⟨k, h1, h2, h3⟩
    refine ⟨k, h1, h2, ?_⟩
    subst h3
    exact List.getElem?_eq_getElem _

/-- The result for two distinct catalog entries of a duplicate-free catalog, by
their indices, before the membership test on the beaten moves is resolved. -/
theorem determineWinner_index (moves : List String) (hnd : moves.Nodup) (i j : Nat)
    (hi : i < moves.length) (hj : j < moves.length) (hij : i ≠ j) :
    GameRules.determineWinner moves[i] moves[j] moves
      = if some moves[j] ∈ GameRules.nextMoves moves (moves.length / 2) i
        then "Win" else "Lose" := by
  have hne : moves[i] ≠ moves[j] := fun h => hij ((List.Nodup.getElem_inj_iff hnd).mp h)
  unfold GameRules.determineWinner
  simp only [includes, List.getElem_mem, decide_True, Bool.not_true, Bool.or_self,
    Bool.false_eq_true, if_false, if_neg hne, winningMoves_lookup moves hnd i hi]
  by_cases h : some moves[j] ∈ GameRules.nextMoves moves (moves.length / 2) i <;> simp [h]

theorem determineWinner_win_iff (moves : List String) (hnd : moves.Nodup) (i j : Nat)
    (hi : i < moves.length) (hj : j < moves.length) (hij : i ≠ j) :
    GameRules.determineWinner moves[i] moves[j] moves = "Win"
      ↔ InBeats moves.length i j := by
  rw [determineWinner_index moves hnd i j hi hj hij, ← includes_nextMoves_iff moves hnd i j hj]
  by_cases h : some moves[j] ∈ GameRules.nextMoves moves (moves.length / 2) i
  · simp [h]
  · simp only [h, if_false, iff_false]
    decide

theorem determineWinner_lose_iff (moves : List String) (hnd : moves.Nodup) (i j : Nat)
    (hi : i < moves.length) (hj : j < moves.length) (hij : i ≠ j) :
    GameRules.determineWinner moves[i] moves[j] moves = "Lose"
      ↔ ¬ InBeats moves.length i j := by
  rw [determineWinner_index moves hnd i j hi hj hij, ← includes_nextMoves_iff moves hnd i j hj]
  by_cases h : some moves[j] ∈ GameRules.nextMoves moves (moves.length / 2) i
  · simp only [h, if_true, not_true, iff_false]
    decide
  · simp [h]

theorem determineWinner_eq_invalid_iff (moves : List String) (x y : String) :
    GameRules.determineWinner x y moves = "Invalid" ↔ (x ∉ moves ∨ y ∉ moves) := by
  unfold GameRules.determineWinner
  by_cases hx : x ∈ moves <;> by_cases hy : y ∈ moves
  · simp only [includes, hx, hy, decide_True, Bool.not_true, Bool.or_self,
      Bool.false_eq_true, if_false, not_true, or_self, iff_false]
    split
    · decide
    · split
      · split <;> decide
      · decide
  · simp [includes, hx, hy]
  · simp [includes, hx, hy]
  · simp [includes, hx, hy]

/-- Reduction of `a % n` for `a < 2 * n`. -/
theorem mod_of_lt_two_mul (a n : Nat) (h : a < 2 * n) :
    a % n = if a < n then a else a - n := by
  split
  · exact Nat.mod_eq_of_lt ‹_›
  · rw [Nat.mod_eq_sub_mod (by omega)]
    exact Nat.mod_eq_of_lt (by omega)

/-- Index form of `InBeats`: the circular distance from `i` to `j` is between
`1` and `floor(n / 2)`. -/
theorem inBeats_iff (n i j : Nat) (hi : i < n) (hj : j < n) :
    InBeats n i j ↔ ((i < j ∧ j - i ≤ n / 2) ∨ (j < i ∧ j + n - i ≤ n / 2)) := by
  unfold InBeats
  constructor
  · rintro ⟨k, h1, h2, h3⟩
    rw [mod_of_lt_two_mul (i + k) n (by omega)] at h3
    split at h3 <;> omega
  · rintro (⟨h1, h2⟩ | ⟨h1, h2⟩)
    · refine ⟨j - i, by omega, h2, ?_⟩
      rw [mod_of_lt_two_mul _ n (by omega)]
      split <;> omega
    · refine ⟨j + n - i, by omega, h2, ?_⟩
      rw [mod_of_lt_two_mul _ n (by omega)]
      split <;> omega

/-- For odd `n`, of two distinct indices exactly one is in the other's beats
range. -/
theorem inBeats_antisymm (n i j : Nat) (hodd : n % 2 = 1) (hi : i < n) (hj : j < n)
    (hij : i ≠ j) : InBeats n i j ↔ ¬ InBeats n j i := by
  rw [inBeats_iff n i j hi hj, inBeats_iff n j i hj hi]
  omega

/-! ## Properties of `GameRules.determineWinner` -/

/-- Claim C1: in a catalog of pairwise distinct names with odd length at least 3,
for two distinct members `a`, `b` exactly one of `determineWinner(a, b, moves)`
and `determineWinner(b, a, moves)` is `'Win'`; equivalently the first is `'Win'`
if and only if the second is `'Lose'`. -/
theorem determineWinner_antisymm (moves : List String) (a b : String)
    (hnd : moves.Nodup) (hodd : moves.length % 2 = 1) (hlen : 3 ≤ moves.length)
    (ha : a ∈ moves) (hb : b ∈ moves) (hab : a ≠ b) :
    Xor' (GameRules.determineWinner a b moves = "Win")
        (GameRules.determineWinner b a moves = "Win")
      ∧ (GameRules.determineWinner a b moves = "Win"
          ↔ GameRules.determineWinner b a moves = "Lose") := by
  obtain ⟨i, hi, rfl⟩ := List.getElem_of_mem ha
  obtain ⟨j, hj, rfl⟩ := List.getElem_of_mem hb
  have hij : i ≠ j := fun h => hab (by subst h; rfl)
  have hab1 := determineWinner_win_iff moves hnd i j hi hj hij
  have hba1 := determineWinner_win_iff moves hnd j i hj hi (Ne.symm hij)
  have hba2 := determineWinner_lose_iff moves hnd j i hj hi (Ne.symm hij)
  have hanti := inBeats_antisymm moves.length i j hodd hi hj hij
  refine ⟨?_, ?_⟩
  · unfold Xor'
    rw [hab1, hba1]
    by_cases h : InBeats moves.length i j
    · exact Or.inl ⟨h, hanti.mp h⟩
    · exact Or.inr ⟨by_contra fun h2 => h (hanti.mpr h2), h⟩
  · rw [hab1, hba2]
    exact hanti

/-- Claim C1, instance: `Rock` against `Paper` in the three-move catalog. -/
theorem determineWinner_antisymm_witness :
    Xor' (GameRules.determineWinner "Rock" "Paper" ["Rock", "Paper", "Scissors"] = "Win")
        (GameRules.determineWinner "Paper" "Rock" ["Rock", "Paper", "Scissors"] = "Win")
      ∧ (GameRules.determineWinner "Rock" "Paper" ["Rock", "Paper", "Scissors"] = "Win"
          ↔ GameRules.determineWinner "Paper" "Rock" ["Rock", "Paper", "Scissors"] = "Lose") :=
  determineWinner_antisymm ["Rock", "Paper", "Scissors"] "Rock" "Paper"
    (by decide) (by decide) (by decide) (by decide) (by decide) (by decide)

/-- Claim C2: in a catalog of pairwise distinct names with odd length `n` at least
3 and `h = floor(n / 2)`, for indices `i ≠ j` below `n` the result of
`determineWinner(moves[i], moves[j], moves)` is `'Win'` if `j = (i + k) mod n`
for some `1 ≤ k ≤ h`, and `'Lose'` otherwise. -/
theorem determineWinner_beats_next_half (moves : List String) (i j : Nat)
    (hnd : moves.Nodup) (hodd : moves.length % 2 = 1) (hlen : 3 ≤ moves.length)
    (hi : i < moves.length) (hj : j < moves.length) (hij : i ≠ j) :
    ((∃ k, 1 ≤ k ∧ k ≤ moves.length / 2 ∧ j = (i + k) % moves.length)
        → GameRules.determineWinner moves[i] moves[j] moves = "Win")
      ∧ ((¬ ∃ k, 1 ≤ k ∧ k ≤ moves.length / 2 ∧ j = (i + k) % moves.length)
        → GameRules.determineWinner moves[i] moves[j] moves = "Lose") := by
  have hw := determineWinner_win_iff moves hnd i j hi hj hij
  have hl := determineWinner_lose_iff moves hnd i j hi hj hij
  constructor
  · rintro ⟨k, h1, h2, h3⟩
    exact hw.mpr ⟨k, h1, h2, h3.symm⟩
  · intro hno
    refine hl.mpr ?_
    rintro ⟨k, h1, h2, h3⟩
    exact hno ⟨k, h1, h2, h3.symm⟩

/-- Claim C2, instance: indices 4 and 1 of a five-move catalog (wrapping around). -/
theorem determineWinner_beats_next_half_witness :
    ((∃ k, 1 ≤ k ∧ k ≤ ["Rock", "Paper", "Scissors", "Lizard", "Spock"].length / 2
          ∧ 1 = (4 + k) % ["Rock", "Paper", "Scissors", "Lizard", "Spock"].length)
        → GameRules.determineWinner "Spock" "Paper"
            ["Rock", "Paper", "Scissors", "Lizard", "Spock"] = "Win")
      ∧ ((¬ ∃ k, 1 ≤ k ∧ k ≤ ["Rock", "Paper", "Scissors", "Lizard", "Spock"].length / 2
          ∧ 1 = (4 + k) % ["Rock", "Paper", "Scissors", "Lizard", "Spock"].length)
        → GameRules.determineWinner "Spock" "Paper"
            ["Rock", "Paper", "Scissors", "Lizard", "Spock"] = "Lose") :=
  determineWinner_beats_next_half ["Rock", "Paper", "Scissors", "Lizard", "Spock"] 4 1
    (by decide) (by decide) (by decide) (by decide) (by decide) (by decide)

/-- The beats-set of the entry at index `i` is the image of `k ↦ moves[(i + k) % n]`
over `1 ≤ k ≤ floor(n / 2)`. -/
theorem beatsSet_eq_image (moves : List String) (hnd : moves.Nodup) (i : Nat)
    (hi : i < moves.length) :
    beatsSet moves[i] moves
      = (Finset.Icc 1 (moves.length / 2)).image
          (fun k => moves.getD ((i + k) % moves.length) "") := by
  ext b
  simp only [beatsSet, Finset.mem_filter, List.mem_toFinset, Finset.mem_image, Finset.mem_Icc]
  constructor
  · rintro ⟨hb, hw⟩
    obtain ⟨j, hj, rfl⟩ := List.getElem_of_mem hb
    by_cases hij : i = j
    · subst hij
      have hd : GameRules.determineWinner moves[i] moves[i] moves = "Draw" := by
        unfold GameRules.determineWinner
        simp [includes]
      rw [hd] at hw
      exact absurd hw (by decide)
    · obtain ⟨k, h1, h2, h3⟩ := (determineWinner_win_iff moves hnd i j hi hj hij).mp hw
      refine ⟨k, ⟨h1, h2⟩, ?_⟩
      subst h3
      rw [List.getD_eq_getElem _ _ hj]
  · rintro ⟨k, ⟨h1, h2⟩, rfl⟩
    have hlt : (i + k) % moves.length < moves.length := Nat.mod_lt _ (by omega)
    rw [List.getD_eq_getElem _ _ hlt]
    refine ⟨List.getElem_mem _, ?_⟩
    have hne : i ≠ (i + k) % moves.length := by
      rw [mod_of_lt_two_mul (i + k) moves.length (by omega)]
      split <;> omega
    exact (determineWinner_win_iff moves hnd i _ hi hlt hne).mpr ⟨k, h1, h2, rfl⟩

theorem card_beatsSet (moves : List String) (hnd : moves.Nodup) (i : Nat)
    (hi : i < moves.length) :
    (beatsSet moves[i] moves).card = moves.length / 2 := by
  rw [beatsSet_eq_image moves hnd i hi, Finset.card_image_of_injOn]
  · simp
  · intro k1 hk1 k2 hk2 heq
    simp only [Finset.coe_Icc, Set.mem_Icc] at hk1 hk2
    have hlt1 : (i + k1) % moves.length < moves.length := Nat.mod_lt _ (by omega)
    have hlt2 : (i + k2) % moves.length < moves.length := Nat.mod_lt _ (by omega)
    simp only [List.getD_eq_getElem _ _ hlt1, List.getD_eq_getElem _ _ hlt2] at heq
    have hidx := (List.Nodup.getElem_inj_iff hnd).mp heq
    rw [mod_of_lt_two_mul (i + k1) moves.length (by omega),
      mod_of_lt_two_mul (i + k2) moves.length (by omega)] at hidx
    split at hidx <;> split at hidx <;> omega

theorem beatsSet_union_losesSet (moves : List String) (hnd : moves.Nodup) (a : String)
    (ha : a ∈ moves) :
    beatsSet a moves ∪ losesSet a moves = moves.toFinset.erase a := by
  obtain ⟨i, hi, rfl⟩ := List.getElem_of_mem ha
  ext b
  simp only [beatsSet, losesSet, Finset.mem_union, Finset.mem_filter, List.mem_toFinset,
    Finset.mem_erase]
  constructor
  · rintro (⟨hb, hr⟩ | ⟨hb, hr⟩)
    all_goals
      refine ⟨?_, hb⟩
      rintro rfl
      have hd : GameRules.determineWinner moves[i] moves[i] moves = "Draw" := by
        unfold GameRules.determineWinner
        simp [includes]
      rw [hd] at hr
      exact absurd hr (by decide)
  · rintro ⟨hne, hb⟩
    obtain ⟨j, hj, rfl⟩ := List.getElem_of_mem hb
    have hij : i ≠ j := fun h => hne (by subst h; rfl)
    by_cases h : InBeats moves.length i j
    · exact Or.inl ⟨hb, (determineWinner_win_iff moves hnd i j hi hj hij).mpr h⟩
    · exact Or.inr ⟨hb, (determineWinner_lose_iff moves hnd i j hi hj hij).mpr h⟩

theorem beatsSet_disjoint_losesSet (moves : List String) (a : String) :
    Disjoint (beatsSet a moves) (losesSet a moves) := by
  rw [Finset.disjoint_left]
  intro b hb hl
  simp only [beatsSet, losesSet, Finset.mem_filter] at hb hl
  rw [hb.2] at hl
  exact absurd hl.2 (by decide)

/-- Claim C3: in a catalog of pairwise distinct names with odd length `n` at least 3,
for every member `a` the beats-set and the loses-set of `a` are disjoint, their
union is the catalog without `a`, and each has exactly `floor(n / 2)` elements. -/
theorem beats_loses_partition (moves : List String) (a : String)
    (hnd : moves.Nodup) (hodd : moves.length % 2 = 1) (hlen : 3 ≤ moves.length)
    (ha : a ∈ moves) :
    Disjoint (beatsSet a moves) (losesSet a moves)
      ∧ beatsSet a moves ∪ losesSet a moves = moves.toFinset.erase a
      ∧ (beatsSet a moves).card = moves.length / 2
      ∧ (losesSet a moves).card = moves.length / 2 := by
  have hdisj := beatsSet_disjoint_losesSet moves a
  have hunion := beatsSet_union_losesSet moves hnd a ha
  have hbeats : (beatsSet a moves).card = moves.length / 2 := by
    obtain ⟨i, hi, rfl⟩ := List.getElem_of_mem ha
    exact card_beatsSet moves hnd i hi
  refine ⟨hdisj, hunion, hbeats, ?_⟩
  have hcard := Finset.card_union_of_disjoint hdisj
  rw [hunion, Finset.card_erase_of_mem (List.mem_toFinset.mpr ha),
    List.toFinset_card_of_nodup hnd, hbeats] at hcard
  omega

/-- Claim C3, instance: the beats-set and loses-set of `Rock` in the five-move
catalog. -/
theorem beats_loses_partition_witness :
    Disjoint (beatsSet "Rock" ["Rock", "Paper", "Scissors", "Lizard", "Spock"])
        (losesSet "Rock" ["Rock", "Paper", "Scissors", "Lizard", "Spock"])
      ∧ beatsSet "Rock" ["Rock", "Paper", "Scissors", "Lizard", "Spock"]
          ∪ losesSet "Rock" ["Rock", "Paper", "Scissors", "Lizard", "Spock"]
        = ["Rock", "Paper", "Scissors", "Lizard", "Spock"].toFinset.erase "Rock"
      ∧ (beatsSet "Rock" ["Rock", "Paper", "Scissors", "Lizard", "Spock"]).card
        = ["Rock", "Paper", "Scissors", "Lizard", "Spock"].length / 2
      ∧ (losesSet "Rock" ["Rock", "Paper", "Scissors", "Lizard", "Spock"]).card
        = ["Rock", "Paper", "Scissors", "Lizard", "Spock"].length / 2 :=
  beats_loses_partition ["Rock", "Paper", "Scissors", "Lizard", "Spock"] "Rock"
    (by decide) (by decide) (by decide) (by decide)

/-- Claim C4: for every list `moves` and all `x`, `y`, `determineWinner(x, y, moves)`
is `'Invalid'` if and only if `x` or `y` is not in `moves`; the function is total
(it returns this value), and since membership is tested before equality,
`determineWinner(x, x, moves)` is `'Invalid'`, not `'Draw'`, when `x` is not in
`moves`. -/
theorem determineWinner_invalid_iff (moves : List String) (x y : String) :
    (GameRules.determineWinner x y moves = "Invalid" ↔ (x ∉ moves ∨ y ∉ moves))
      ∧ (x ∉ moves → GameRules.determineWinner x x moves = "Invalid"
          ∧ GameRules.determineWinner x x moves ≠ "Draw") := by
  refine ⟨determineWinner_eq_invalid_iff moves x y, ?_⟩
  intro hx
  have h : GameRules.determineWinner x x moves = "Invalid" :=
    (determineWinner_eq_invalid_iff moves x x).mpr (Or.inl hx)
  rw [h]
  exact ⟨rfl, by decide⟩

/-- Claim C4, instance: a name outside the catalog against itself. -/
theorem determineWinner_invalid_iff_witness :
    (GameRules.determineWinner "Well" "Well" ["Rock", "Paper", "Scissors"] = "Invalid"
        ↔ ("Well" ∉ ["Rock", "Paper", "Scissors"] ∨ "Well" ∉ ["Rock", "Paper", "Scissors"]))
      ∧ ("Well" ∉ ["Rock", "Paper", "Scissors"]
          → GameRules.determineWinner "Well" "Well" ["Rock", "Paper", "Scissors"] = "Invalid"
            ∧ GameRules.determineWinner "Well" "Well" ["Rock", "Paper", "Scissors"] ≠ "Draw") :=
  determineWinner_invalid_iff ["Rock", "Paper", "Scissors"] "Well" "Well"

/-- Claim C5: for every odd `n ≥ 3`, every catalog of `n` pairwise distinct names
and every member `a`, `determineWinner(a, a, moves)` is `'Draw'`. -/
theorem determineWinner_self_draw (n : Nat) (moves : List String) (a : String)
    (hodd : n % 2 = 1) (hn : 3 ≤ n) (hlen : moves.length = n) (hnd : moves.Nodup)
    (ha : a ∈ moves) :
    GameRules.determineWinner a a moves = "Draw" := by
  unfold GameRules.determineWinner
  simp [includes, ha]

/-- Claim C5, instance: `Paper` against itself in the three-move catalog. -/
theorem determineWinner_self_draw_witness :
    GameRules.determineWinner "Paper" "Paper" ["Rock", "Paper", "Scissors"] = "Draw" :=
  determineWinner_self_draw 3 ["Rock", "Paper", "Scissors"] "Paper"
    (by decide) (by decide) (by decide) (by decide) (by decide)

/-- Claim C6 as stated fails: with `moves = ['Rock', 'Paper', 'Scissors']` it is not
the case that `determineWinner('Rock', 'Scissors', moves)` is `'Win'`,
`determineWinner('Rock', 'Paper', moves)` is `'Lose'` and
`determineWinner('Rock', 'Rock', moves)` is `'Draw'`. -/
theorem determineWinner_rock_scissors_not_win :
    ¬ (GameRules.determineWinner "Rock" "Scissors" ["Rock", "Paper", "Scissors"] = "Win"
      ∧ GameRules.determineWinner "Rock" "Paper" ["Rock", "Paper", "Scissors"] = "Lose"
      ∧ GameRules.determineWinner "Rock" "Rock" ["Rock", "Paper", "Scissors"] = "Draw") := by
  decide

/-- Claim C6, amended: with `moves = ['Rock', 'Paper', 'Scissors']`,
`determineWinner('Rock', 'Paper', moves)` is `'Win'` (`Paper` is the next move
after `Rock`), `determineWinner('Rock', 'Scissors', moves)` is `'Lose'`, and
`determineWinner('Rock', 'Rock', moves)` is `'Draw'`. -/
theorem determineWinner_rock_paper_scissors :
    GameRules.determineWinner "Rock" "Paper" ["Rock", "Paper", "Scissors"] = "Win"
      ∧ GameRules.determineWinner "Rock" "Scissors" ["Rock", "Paper", "Scissors"] = "Lose"
      ∧ GameRules.determineWinner "Rock" "Rock" ["Rock", "Paper", "Scissors"] = "Draw" := by
  decide

/-- Claim C7: for every catalog `[m0, m1, m2, m3, m4]` of 5 pairwise distinct names,
`determineWinner(m0, m1, moves)` and `determineWinner(m0, m2, moves)` are `'Win'`,
`determineWinner(m0, m3, moves)` and `determineWinner(m0, m4, moves)` are `'Lose'`. -/
theorem determineWinner_five_moves (m0 m1 m2 m3 m4 : String)
    (hnd : [m0, m1, m2, m3, m4].Nodup) :
    GameRules.determineWinner m0 m1 [m0, m1, m2, m3, m4] = "Win"
      ∧ GameRules.determineWinner m0 m2 [m0, m1, m2, m3, m4] = "Win"
      ∧ GameRules.determineWinner m0 m3 [m0, m1, m2, m3, m4] = "Lose"
      ∧ GameRules.determineWinner m0 m4 [m0, m1, m2, m3, m4] = "Lose" := by
  have h1 := determineWinner_win_iff [m0, m1, m2, m3, m4] hnd 0 1 (by simp) (by simp) (by decide)
  have h2 := determineWinner_win_iff [m0, m1, m2, m3, m4] hnd 0 2 (by simp) (by simp) (by decide)
  have h3 := determineWinner_lose_iff [m0, m1, m2, m3, m4] hnd 0 3 (by simp) (by simp) (by decide)
  have h4 := determineWinner_lose_iff [m0, m1, m2, m3, m4] hnd 0 4 (by simp) (by simp) (by decide)
  refine ⟨h1.mpr ⟨1, by decide, by simp, by simp⟩,
    h2.mpr ⟨2, by decide, by simp, by simp⟩, h3.mpr ?_, h4.mpr ?_⟩
  · rw [inBeats_iff _ _ _ (by simp) (by simp)]
    simp
  · rw [inBeats_iff _ _ _ (by simp) (by simp)]
    simp

/-- Claim C7, instance: the catalog `Rock, Paper, Scissors, Lizard, Spock`. -/
theorem determineWinner_five_moves_witness :
    GameRules.determineWinner "Rock" "Paper"
        ["Rock", "Paper", "Scissors", "Lizard", "Spock"] = "Win"
      ∧ GameRules.determineWinner "Rock" "Scissors"
        ["Rock", "Paper", "Scissors", "Lizard", "Spock"] = "Win"
      ∧ GameRules.determineWinner "Rock" "Lizard"
        ["Rock", "Paper", "Scissors", "Lizard", "Spock"] = "Lose"
      ∧ GameRules.determineWinner "Rock" "Spock"
        ["Rock", "Paper", "Scissors", "Lizard", "Spock"] = "Lose" :=
  determineWinner_five_moves "Rock" "Paper" "Scissors" "Lizard" "Spock" (by decide)

/-! ## Properties of `HelpTable.generateTable` -/

theorem generateTable_eq_map (moves : List String) :
    HelpTable.generateTable moves
      = ("" :: moves) :: moves.map (fun move =>
          move :: moves.map (fun opponentMove =>
            if move = opponentMove then "Draw"
            else GameRules.determineWinner move opponentMove moves)) := by
  unfold HelpTable.generateTable
  have hinner : ∀ move : String,
      moves.foldl
        (fun row opponentMove =>
          if move = opponentMove then
            row ++ ["Draw"]
          else
            row ++ [GameRules.determineWinner move opponentMove moves])
        [move]
      = [move] ++ moves.map (fun opponentMove =>
            if move = opponentMove then "Draw"
            else GameRules.determineWinner move opponentMove moves) := by
    intro move
    rw [← foldl_push_eq_map]
    congr 1
    funext row opponentMove
    split <;> rfl
  simp only [hinner]
  rw [foldl_push_eq_map]
  simp

/-- Every data cell of the table, for any list `moves`. -/
theorem cell_generateTable (moves : List String) (i j : Nat)
    (hi : i < moves.length) (hj : j < moves.length) :
    HelpTable.cell (HelpTable.generateTable moves) i j
      = some (if moves[i] = moves[j] then "Draw"
              else GameRules.determineWinner moves[i] moves[j] moves) := by
  rw [generateTable_eq_map]
  simp [HelpTable.cell, List.getElem?_eq_getElem, hi, hj]

/-- Claim C8: for a catalog of pairwise distinct names with odd length at least 3,
the table built by `generateTable`, read as data cells `(i, j) = rows[i+1][j+1]`,
has `'Draw'` in every diagonal cell, for `i ≠ j` cell `(i, j)` is `'Win'` if and
only if cell `(j, i)` is `'Lose'`, and no cell is `'Invalid'`. -/
theorem generateTable_matrix (moves : List String)
    (hnd : moves.Nodup) (hodd : moves.length % 2 = 1) (hlen : 3 ≤ moves.length) :
    (∀ i, i < moves.length →
        HelpTable.cell (HelpTable.generateTable moves) i i = some "Draw")
      ∧ (∀ i j, i < moves.length → j < moves.length → i ≠ j →
          (HelpTable.cell (HelpTable.generateTable moves) i j = some "Win"
            ↔ HelpTable.cell (HelpTable.generateTable moves) j i = some "Lose"))
      ∧ (∀ i j, i < moves.length → j < moves.length →
          ∃ v, HelpTable.cell (HelpTable.generateTable moves) i j = some v
            ∧ v ≠ "Invalid") := by
  refine ⟨?_, ?_, ?_⟩
  · intro i hi
    rw [cell_generateTable moves i i hi hi]
    simp
  · intro i j hi hj hij
    have hne : moves[i] ≠ moves[j] := fun h => hij ((List.Nodup.getElem_inj_iff hnd).mp h)
    rw [cell_generateTable moves i j hi hj, cell_generateTable moves j i hj hi,
      if_neg hne, if_neg (Ne.symm hne)]
    simp only [Option.some.injEq]
    rw [determineWinner_win_iff moves hnd i j hi hj hij,
      determineWinner_lose_iff moves hnd j i hj hi (Ne.symm hij)]
    exact inBeats_antisymm moves.length i j hodd hi hj hij
  · intro i j hi hj
    rw [cell_generateTable moves i j hi hj]
    refine ⟨_, rfl, ?_⟩
    split
    · decide
    · intro hinv
      have := (determineWinner_eq_invalid_iff moves moves[i] moves[j]).mp hinv
      rcases this with h | h
      · exact h (List.getElem_mem _)
      · exact h (List.getElem_mem _)

/-- Claim C8, instance: the table of the three-move catalog. -/
theorem generateTable_matrix_witness :
    (∀ i, i < ["Rock", "Paper", "Scissors"].length →
        HelpTable.cell (HelpTable.generateTable ["Rock", "Paper", "Scissors"]) i i
          = some "Draw")
      ∧ (∀ i j, i < ["Rock", "Paper", "Scissors"].length →
          j < ["Rock", "Paper", "Scissors"].length → i ≠ j →
          (HelpTable.cell (HelpTable.generateTable ["Rock", "Paper", "Scissors"]) i j
              = some "Win"
            ↔ HelpTable.cell (HelpTable.generateTable ["Rock", "Paper", "Scissors"]) j i
              = some "Lose"))
      ∧ (∀ i j, i < ["Rock", "Paper", "Scissors"].length →
          j < ["Rock", "Paper", "Scissors"].length →
          ∃ v, HelpTable.cell (HelpTable.generateTable ["Rock", "Paper", "Scissors"]) i j
              = some v
            ∧ v ≠ "Invalid") :=
  generateTable_matrix ["Rock", "Paper", "Scissors"] (by decide) (by decide) (by decide)

/-! ## Properties of `Main.main` -/

/-- The size of `new Set(arr)` never exceeds the length of `arr`, and reaches it
exactly when `arr` has no repeated element and shares none with the elements
already in the set. -/
theorem foldl_insert_length (l set : List String) :
    (l.foldl (fun set x => if x ∈ set then set else set ++ [x]) set).length
        ≤ set.length + l.length
      ∧ ((l.foldl (fun set x => if x ∈ set then set else set ++ [x]) set).length
          = set.length + l.length ↔ (l.Nodup ∧ ∀ x ∈ l, x ∉ set)) := by
  induction l generalizing set with
  | nil => simp
  | cons a l ih =>
    simp only [List.foldl_cons, List.length_cons, List.nodup_cons, List.mem_cons]
    by_cases ha : a ∈ set
    · rw [if_pos ha]
      have h1 := (ih set).1
      constructor
      · omega
      · constructor
        · intro h
          omega
        · rintro ⟨_, h⟩
          exact absurd ha (h a (Or.inl rfl))
    · rw [if_neg ha]
      have h1 := (ih (set ++ [a])).1
      have h2 := (ih (set ++ [a])).2
      simp only [List.length_append, List.length_singleton, List.mem_append,
        List.mem_singleton] at h1 h2
      constructor
      · omega
      · constructor
        · intro h
          have h3 := h2.mp (by omega)
          refine ⟨⟨fun hal => (h3.2 a hal) (Or.inr rfl), h3.1⟩, ?_⟩
          rintro x (rfl | hx)
          · exact ha
          · exact fun hxs => h3.2 x hx (Or.inl hxs)
        · rintro ⟨⟨hal, hnd⟩, hall⟩
          have h3 := h2.mpr ⟨hnd, fun x hx hor => by
            rcases hor with hxs | rfl
            · exact hall x (Or.inr hx) hxs
            · exact hal hx⟩
          omega

theorem setOfArray_length_eq_iff (arr : List String) :
    (setOfArray arr).length = arr.length ↔ arr.Nodup := by
  have h := (foldl_insert_length arr []).2
  simp only [List.length_nil, Nat.zero_add, List.not_mem_nil, not_false_eq_true,
    implies_true, and_true] at h
  exact h

/-- The test of line 136. -/
theorem main_guard_iff (args : List String) :
    (args.length < 3 || (setOfArray args).length != args.length) = true
      ↔ (args.length < 3 ∨ ¬ args.Nodup) := by
  simp only [Bool.or_eq_true, decide_eq_true_eq, bne_iff_ne, ne_eq,
    setOfArray_length_eq_iff]

theorem round_helpTable (P : Platform) (moves : List String) (turn : Turn moves.length)
    (s : Session) : (Main.round P moves turn s).session.helpTable = s.helpTable := by
  unfold Main.round
  dsimp only
  split_ifs
  · rfl
  · rfl
  · rfl
  · split
    · rfl
    · split <;> rfl

/-- The loop never calls `process.exit`, and keeps the help table it was given. -/
theorem loop_session (P : Platform) (moves : List String) (turns : List (Turn moves.length))
    (s : Session) :
    ∃ s', (Main.loop P moves turns s).session = some s'
      ∧ s'.helpTable = s.helpTable
      ∧ ∀ code, (Main.loop P moves turns s).status ≠ Status.exited code := by
  induction turns generalizing s with
  | nil => exact ⟨s, rfl, rfl, fun code h => by cases h⟩
  | cons turn rest ih =>
    unfold Main.loop
    dsimp only
    split_ifs with hstop
    · exact ⟨_, rfl, round_helpTable P moves turn s, fun code h => by cases h⟩
    · obtain ⟨s', h1, h2, h3⟩ := ih (Main.round P moves turn s).session
      exact ⟨s', h1, by rw [h2, round_helpTable], h3⟩

theorem main_eq_rejected_iff (P : Platform) (args : List String)
    (turns : List (Turn args.length)) :
    Main.main P args turns = Main.rejected ↔ (args.length < 3 ∨ ¬ args.Nodup) := by
  rw [← main_guard_iff]
  unfold Main.main
  by_cases h : (args.length < 3 || (setOfArray args).length != args.length) = true
  · rw [if_pos h]
    exact ⟨fun _ => h, fun _ => rfl⟩
  · rw [if_neg h]
    refine ⟨fun heq => ?_, fun h2 => absurd h2 h⟩
    obtain ⟨s', h1, _, _⟩ := loop_session P args turns
      { helpTable := HelpTable.new args, statistics := Statistics.new,
        gameHistory := [], rounds := 0 }
    have := congrArg Run.session heq
    simp only [h1, Main.rejected] at this
    cases this

theorem main_accepted (P : Platform) (args : List String)
    (turns : List (Turn args.length)) (hlen : 3 ≤ args.length) (hnd : args.Nodup) :
    ∃ s, (Main.main P args turns).session = some s
      ∧ s.helpTable = HelpTable.new args
      ∧ ∀ code, (Main.main P args turns).status ≠ Status.exited code := by
  have hg : ¬ ((args.length < 3 || (setOfArray args).length != args.length) = true) := by
    rw [main_guard_iff]
    rintro (h | h)
    · omega
    · exact h hnd
  unfold Main.main
  rw [if_neg hg]
  exact loop_session P args turns _

/-- Claim C9: `Main.main` rejects its argument list (prints the two usage lines and
exits with status 1, with no help table built, no key generated and no round
run) if and only if the list has fewer than 3 entries or contains a repeated
name; every list of at least 3 pairwise distinct names is accepted: the help
table is built and the process does not exit through `process.exit`. -/
theorem main_validation (P : Platform) (args : List String)
    (turns : List (Turn args.length)) :
    (Main.main P args turns
        = { output := [Output.log "Invalid input. Please provide at least 3 unique moves.",
                       Output.log "Example: node game.js Rock Paper Scissors"],
            status := Status.exited 1,
            session := none }
      ↔ (args.length < 3 ∨ ¬ args.Nodup))
    ∧ (3 ≤ args.length → args.Nodup →
        ∃ s, (Main.main P args turns).session = some s
          ∧ s.helpTable = HelpTable.new args
          ∧ ∀ code, (Main.main P args turns).status ≠ Status.exited code) :=
  ⟨main_eq_rejected_iff P args turns, main_accepted P args turns⟩

/-- Claim C9, instance: three distinct names are accepted, and a list with a
repeated name is rejected. -/
theorem main_validation_witness :
    (3 ≤ ["Rock", "Paper", "Scissors"].length ∧ ["Rock", "Paper", "Scissors"].Nodup
      ∧ ∃ s, (Main.main samplePlatform ["Rock", "Paper", "Scissors"] [sampleTurn3]).session
            = some s
          ∧ s.helpTable = HelpTable.new ["Rock", "Paper", "Scissors"]
          ∧ ∀ code, (Main.main samplePlatform ["Rock", "Paper", "Scissors"]
              [sampleTurn3]).status ≠ Status.exited code)
    ∧ Main.main samplePlatform ["Rock", "Rock", "Paper"] [sampleTurn3]
        = { output := [Output.log "Invalid input. Please provide at least 3 unique moves.",
                       Output.log "Example: node game.js Rock Paper Scissors"],
            status := Status.exited 1,
            session := none } :=
  ⟨⟨by decide, by decide,
      (main_validation samplePlatform ["Rock", "Paper", "Scissors"] [sampleTurn3]).2
        (by decide) (by decide)⟩,
    (main_validation samplePlatform ["Rock", "Rock", "Paper"] [sampleTurn3]).1.mpr
      (Or.inr (by decide))⟩

/-- Claim C10 as stated fails: the argument list `Rock Paper Scissors Lizard` has even
length, yet `Main.main` does not reject it: the help table is built, a round is
played against it and recorded, and the loop goes on. -/
theorem main_accepts_four_moves :
    ["Rock", "Paper", "Scissors", "Lizard"].length % 2 = 0
      ∧ (Main.main samplePlatform ["Rock", "Paper", "Scissors", "Lizard"]
          [sampleTurn4]).status = Status.running
      ∧ (Main.main samplePlatform ["Rock", "Paper", "Scissors", "Lizard"]
          [sampleTurn4]).session
        = some
            { helpTable := HelpTable.new ["Rock", "Paper", "Scissors", "Lizard"],
              statistics := { wins := 1, losses := 0, draws := 0 },
              gameHistory := [{ computerMove := "Paper", userMove := "Rock", result := "Win" }],
              rounds := 1 } := by
  decide

/-! ## Further properties of the resolver and of the table -/

theorem determineWinner_draw_of_mem (moves : List String) (a : String) (ha : a ∈ moves) :
    GameRules.determineWinner a a moves = "Draw" := by
  unfold GameRules.determineWinner
  simp [includes, ha]

/-- Claim C16: for every list `moves`, repeated names included, data cell
`rows[i+1][j+1]` of `generateTable` is `determineWinner(moves[i], moves[j], moves)`,
so the literal `'Draw'` agrees with the resolver; the table has
`moves.length + 1` rows of `moves.length + 1` cells, `rows[0]` is `['', ...moves]`
and `rows[i+1][0]` is `moves[i]`. -/
theorem generateTable_agrees_with_determineWinner (moves : List String) :
    (HelpTable.generateTable moves).length = moves.length + 1
      ∧ (∀ row ∈ HelpTable.generateTable moves, row.length = moves.length + 1)
      ∧ (HelpTable.generateTable moves)[0]? = some ("" :: moves)
      ∧ (∀ i (hi : i < moves.length),
          ∃ row, (HelpTable.generateTable moves)[i + 1]? = some row
            ∧ row[0]? = some moves[i])
      ∧ (∀ i j (hi : i < moves.length) (hj : j < moves.length),
          HelpTable.cell (HelpTable.generateTable moves) i j
            = some (GameRules.determineWinner moves[i] moves[j] moves)) := by
  refine ⟨?_, ?_, ?_, ?_, ?_⟩
  · rw [generateTable_eq_map]
    simp
  · rw [generateTable_eq_map]
    intro row hrow
    simp only [List.mem_cons, List.mem_map] at hrow
    rcases hrow with rfl | ⟨move, _, rfl⟩ <;> simp
  · rw [generateTable_eq_map]
    simp
  · intro i hi
    rw [generateTable_eq_map]
    simp [List.getElem?_eq_getElem, hi]
  · intro i j hi hj
    rw [cell_generateTable moves i j hi hj]
    by_cases h : moves[i] = moves[j]
    · rw [if_pos h, ← h, determineWinner_draw_of_mem moves moves[i] (List.getElem_mem _)]
    · rw [if_neg h]

/-- Claim C16, instance: a list with a repeated name; the cell of the two equal
names is the resolver's `'Draw'`. -/
theorem generateTable_agrees_with_determineWinner_witness :
    HelpTable.cell (HelpTable.generateTable ["Rock", "Rock", "Paper"]) 0 1
      = some (GameRules.determineWinner "Rock" "Rock" ["Rock", "Rock", "Paper"]) :=
  (generateTable_agrees_with_determineWinner ["Rock", "Rock", "Paper"]).2.2.2.2 0 1
    (by decide) (by decide)

/-- Shifting both indices by `k` around the circle keeps the beats relation. -/
theorem inBeats_shift (n i j k : Nat) (hi : i < n) (hj : j < n) :
    InBeats n ((i + k) % n) ((j + k) % n) ↔ InBeats n i j := by
  unfold InBeats
  have key : ∀ m, ((i + k) % n + m) % n = (j + k) % n ↔ (i + m) % n = j := by
    intro m
    have h1 : ((i + k) % n + m) % n = ((i + m) + k) % n := by
      rw [Nat.mod_add_mod]
      congr 1
      omega
    rw [h1]
    constructor
    · intro h
      have h2 : (i + m) ≡ j [MOD n] := Nat.ModEq.add_right_cancel' k h
      have h3 : (i + m) % n = j % n := h2
      rw [Nat.mod_eq_of_lt hj] at h3
      exact h3
    · intro h
      rw [← h, Nat.mod_add_mod]
  constructor
  · rintro ⟨m, h1, h2, h3⟩
    exact ⟨m, h1, h2, (key m).mp h3⟩
  · rintro ⟨m, h1, h2, h3⟩
    exact ⟨m, h1, h2, (key m).mpr h3⟩

/-- The resolver on a rotation `moves.rotate k` of a duplicate-free list. -/
theorem determineWinner_rotate (moves : List String) (hnd : moves.Nodup) (k : Nat)
    (x y : String) :
    GameRules.determineWinner x y (moves.rotate k) = GameRules.determineWinner x y moves := by
  have hrnd : (moves.rotate k).Nodup := List.nodup_rotate.mpr hnd
  have hlen : (moves.rotate k).length = moves.length := List.length_rotate moves k
  by_cases hx : x ∈ moves
  swap
  · rw [(determineWinner_eq_invalid_iff moves x y).mpr (Or.inl hx),
      (determineWinner_eq_invalid_iff _ x y).mpr (Or.inl (fun h => hx (List.mem_rotate.mp h)))]
  by_cases hy : y ∈ moves
  swap
  · rw [(determineWinner_eq_invalid_iff moves x y).mpr (Or.inr hy),
      (determineWinner_eq_invalid_iff _ x y).mpr (Or.inr (fun h => hy (List.mem_rotate.mp h)))]
  by_cases hxy : x = y
  · subst hxy
    rw [determineWinner_draw_of_mem moves x hx,
      determineWinner_draw_of_mem _ x (List.mem_rotate.mpr hx)]
  obtain ⟨i, hi, hxi⟩ := List.getElem_of_mem (List.mem_rotate.mpr hx : x ∈ moves.rotate k)
  obtain ⟨j, hj, hyj⟩ := List.getElem_of_mem (List.mem_rotate.mpr hy : y ∈ moves.rotate k)
  have hij : i ≠ j := by
    rintro rfl
    exact hxy (hxi.symm.trans hyj)
  have hpos : 0 < moves.length := by omega
  have hi' : (i + k) % moves.length < moves.length := Nat.mod_lt _ hpos
  have hj' : (j + k) % moves.length < moves.length := Nat.mod_lt _ hpos
  have hxi' : moves[(i + k) % moves.length] = x := by
    rw [← hxi, List.getElem_rotate]
  have hyj' : moves[(j + k) % moves.length] = y := by
    rw [← hyj, List.getElem_rotate]
  have hij' : (i + k) % moves.length ≠ (j + k) % moves.length := by
    intro h
    apply hxy
    rw [← hxi', ← hyj']
    simp only [h]
  have hwr := determineWinner_win_iff _ hrnd i j hi hj hij
  have hlr := determineWinner_lose_iff _ hrnd i j hi hj hij
  have hwm := determineWinner_win_iff moves hnd _ _ hi' hj' hij'
  have hlm := determineWinner_lose_iff moves hnd _ _ hi' hj' hij'
  rw [hxi, hyj, hlen] at hwr hlr
  rw [hxi', hyj', inBeats_shift moves.length i j k (by omega) (by omega)] at hwm hlm
  by_cases hb : InBeats moves.length i j
  · rw [hwr.mpr hb, hwm.mpr hb]
  · rw [hlr.mpr hb, hlm.mpr hb]

/-- Claim C18: for every list `moves` of pairwise distinct names, every rotation
`moves[k..] ++ moves[..k]` of it and all `x`, `y`, the resolver gives the same
result on the rotation as on `moves`. -/
theorem determineWinner_rotation_invariant (moves : List String) (k : Nat) (x y : String)
    (hnd : moves.Nodup) :
    GameRules.determineWinner x y (moves.drop k ++ moves.take k)
      = GameRules.determineWinner x y moves := by
  rcases Nat.le_total k moves.length with hk | hk
  · rw [← List.rotate_eq_drop_append_take hk]
    exact determineWinner_rotate moves hnd k x y
  · rw [List.drop_eq_nil_of_le hk, List.take_of_length_le hk, List.nil_append]

/-- Claim C18, instance: `Spock` against `Paper` in the five-move catalog rotated by 2. -/
theorem determineWinner_rotation_invariant_witness :
    GameRules.determineWinner "Spock" "Paper"
        (["Rock", "Paper", "Scissors", "Lizard", "Spock"].drop 2
          ++ ["Rock", "Paper", "Scissors", "Lizard", "Spock"].take 2)
      = GameRules.determineWinner "Spock" "Paper"
          ["Rock", "Paper", "Scissors", "Lizard", "Spock"] :=
  determineWinner_rotation_invariant ["Rock", "Paper", "Scissors", "Lizard", "Spock"] 2
    "Spock" "Paper" (by decide)

/-- Claim C17: for a catalog of pairwise distinct names with even length `n` at
least 2 and every index `i`, with `j = (i + n / 2) mod n` both
`determineWinner(moves[i], moves[j], moves)` and
`determineWinner(moves[j], moves[i], moves)` are `'Win'`, so antisymmetry fails;
the move at `i` beats `n / 2` moves and loses to `n / 2 - 1`. -/
theorem determineWinner_even_overlap (moves : List String) (i : Nat) (b : String)
    (hnd : moves.Nodup) (heven : moves.length % 2 = 0) (hlen : 2 ≤ moves.length)
    (hi : i < moves.length)
    (hb : moves[(i + moves.length / 2) % moves.length]? = some b) :
    GameRules.determineWinner moves[i] b moves = "Win"
      ∧ GameRules.determineWinner b moves[i] moves = "Win"
      ∧ (beatsSet moves[i] moves).card = moves.length / 2
      ∧ (losesSet moves[i] moves).card = moves.length / 2 - 1 := by
  have hj : (i + moves.length / 2) % moves.length < moves.length := Nat.mod_lt _ (by omega)
  rw [List.getElem?_eq_getElem hj] at hb
  have hb' : moves[(i + moves.length / 2) % moves.length] = b := Option.some.inj hb
  subst hb'
  have hval := mod_of_lt_two_mul (i + moves.length / 2) moves.length (by omega)
  have hij : i ≠ (i + moves.length / 2) % moves.length := by
    rw [hval]
    split <;> omega
  have hfwd : InBeats moves.length i ((i + moves.length / 2) % moves.length) :=
    ⟨moves.length / 2, by omega, le_refl _, rfl⟩
  have hback : InBeats moves.length ((i + moves.length / 2) % moves.length) i := by
    rw [inBeats_iff _ _ _ hj hi, hval]
    split <;> omega
  have hbeats := card_beatsSet moves hnd i hi
  have hcard := Finset.card_union_of_disjoint (beatsSet_disjoint_losesSet moves moves[i])
  rw [beatsSet_union_losesSet moves hnd moves[i] (List.getElem_mem _),
    Finset.card_erase_of_mem (List.mem_toFinset.mpr (List.getElem_mem _)),
    List.toFinset_card_of_nodup hnd, hbeats] at hcard
  exact ⟨(determineWinner_win_iff moves hnd i _ hi hj hij).mpr hfwd,
    (determineWinner_win_iff moves hnd _ i hj hi (Ne.symm hij)).mpr hback,
    hbeats, by omega⟩

/-- Claim C17, instance: `Rock` and `Scissors`, opposite each other in a catalog of
four moves, each beat the other. -/
theorem determineWinner_even_overlap_witness :
    GameRules.determineWinner "Rock" "Scissors" ["Rock", "Paper", "Scissors", "Lizard"] = "Win"
      ∧ GameRules.determineWinner "Scissors" "Rock" ["Rock", "Paper", "Scissors", "Lizard"]
        = "Win"
      ∧ (beatsSet "Rock" ["Rock", "Paper", "Scissors", "Lizard"]).card
        = ["Rock", "Paper", "Scissors", "Lizard"].length / 2
      ∧ (losesSet "Rock" ["Rock", "Paper", "Scissors", "Lizard"]).card
        = ["Rock", "Paper", "Scissors", "Lizard"].length / 2 - 1 :=
  determineWinner_even_overlap ["Rock", "Paper", "Scissors", "Lizard"] 0 "Scissors"
    (by decide) (by decide) (by decide) (by decide) (by decide)

/-! ## One iteration of the loop, branch by branch -/

theorem round_exit (P : Platform) (moves : List String) (turn : Turn moves.length)
    (s : Session) (h : turn.input = "0") :
    Main.round P moves turn s
      = { output := Main.roundMenu P moves turn,
          session := { s with rounds := s.rounds + 1 },
          stop := true } := by
  unfold Main.round
  simp only [h, if_true]

theorem round_help (P : Platform) (moves : List String) (turn : Turn moves.length)
    (s : Session) (h : turn.input = "?") :
    Main.round P moves turn s
      = { output := Main.roundMenu P moves turn ++ s.helpTable.displayTable,
          session := { s with rounds := s.rounds + 1 },
          stop := false } := by
  unfold Main.round
  have h0 : ¬ ("?" = "0") := by decide
  simp only [h, h0, if_true, if_false]

theorem round_show_history (P : Platform) (moves : List String) (turn : Turn moves.length)
    (s : Session) (h : turn.input = "!") :
    Main.round P moves turn s
      = { output := Main.roundMenu P moves turn
            ++ [Output.log "Game History:", Output.table s.gameHistory],
          session := { s with rounds := s.rounds + 1 },
          stop := false } := by
  unfold Main.round
  have h0 : ¬ ("!" = "0") := by decide
  have h1 : ¬ ("!" = "?") := by decide
  simp only [h, h0, h1, if_true, if_false]

theorem round_invalid (P : Platform) (moves : List String) (turn : Turn moves.length)
    (s : Session) (h : Main.InvalidSelection P moves turn.input) :
    Main.round P moves turn s
      = { output := Main.roundMenu P moves turn
            ++ [Output.log "Invalid move. Please choose a valid move."],
          session := { s with rounds := s.rounds + 1 },
          stop := false } := by
  obtain ⟨h0, h1, h2, hp⟩ := h
  unfold Main.round
  simp only [h0, h1, h2, if_false]
  rcases hp with hp | ⟨k, hp, hk⟩
  · simp only [hp]
  · simp only [hp, dif_pos hk]

theorem round_select (P : Platform) (moves : List String) (turn : Turn moves.length)
    (s : Session) (k : Int) (h : Main.Selects P moves turn.input k) :
    ∃ userMove, moves[(k - 1).toNat]? = some userMove
      ∧ Main.round P moves turn s
        = { output := Main.roundMenu P moves turn
              ++ [Output.log ("Your move: " ++ userMove),
                  Output.log ("Computer move: " ++ moves.get turn.draw),
                  Output.log ("HMAC key: " ++ Buffer.toHex turn.key)]
              ++ GameRules.determineWinnerLog userMove (moves.get turn.draw) moves
              ++ [Output.log ("You "
                    ++ GameRules.determineWinner userMove (moves.get turn.draw) moves ++ "!")]
              ++ (s.statistics.updateStatistics
                    (GameRules.determineWinner userMove (moves.get turn.draw) moves)
                  ).displayStatistics,
            session :=
              { helpTable := s.helpTable,
                statistics := s.statistics.updateStatistics
                  (GameRules.determineWinner userMove (moves.get turn.draw) moves),
                gameHistory := s.gameHistory ++
                  [{ computerMove := moves.get turn.draw, userMove := userMove,
                     result := GameRules.determineWinner userMove (moves.get turn.draw) moves }],
                rounds := s.rounds + 1 },
            stop := false } := by
  obtain ⟨h0, h1, h2, hp, hk1, hk2⟩ := h
  have hlt : (k - 1).toNat < moves.length := by omega
  have hk : ¬ (k < 1 ∨ k > moves.length) := by omega
  refine ⟨moves.get ⟨(k - 1).toNat, hlt⟩, ?_, ?_⟩
  · rw [List.getElem?_eq_getElem hlt]
    rfl
  · unfold Main.round
    simp only [h0, h1, h2, if_false, hp, dif_neg hk]

/-- Whatever is typed, the output of a round begins with the menu of lines
149-160. -/
theorem round_output_menu (P : Platform) (moves : List String) (turn : Turn moves.length)
    (s : Session) :
    ∃ rest, (Main.round P moves turn s).output = Main.roundMenu P moves turn ++ rest := by
  unfold Main.round
  dsimp only
  split_ifs
  · exact ⟨[], by simp⟩
  · exact ⟨_, rfl⟩
  · exact ⟨_, rfl⟩
  · split
    · exact ⟨_, rfl⟩
    · split
      · exact ⟨_, rfl⟩
      · simp only [List.append_assoc]
        exact ⟨_, rfl⟩

/-! ## Commitment and reveal -/

theorem calculateHmac_errors (P : Platform) (key message : String) :
    ∀ o ∈ (HmacCalculator.calculateHmac P key message).1, ∃ t, o = Output.error t := by
  unfold HmacCalculator.calculateHmac
  split
  · intro o ho
    cases ho
  · intro o ho
    simp only [List.mem_singleton] at ho
    exact ⟨_, ho⟩

/-- The menu of a round, split at the prompt. -/
theorem roundMenu_eq (P : Platform) (moves : List String) (turn : Turn moves.length) :
    Main.roundMenu P moves turn
      = Main.beforePrompt P moves turn ++ [Output.prompt "Enter your move: "] := by
  unfold Main.roundMenu Main.beforePrompt
  simp only [List.append_assoc, List.cons_append, List.nil_append]

theorem beforePrompt_no_prompt (P : Platform) (moves : List String)
    (turn : Turn moves.length) :
    ∀ o ∈ Main.beforePrompt P moves turn, ∀ t, o ≠ Output.prompt t := by
  intro o ho t heq
  subst heq
  unfold Main.beforePrompt at ho
  simp only [List.mem_append, List.mem_singleton, List.mem_map, List.mem_cons,
    List.mem_nil_iff, or_false] at ho
  rcases ho with ((ho | ho) | ho)
  · obtain ⟨t', ht'⟩ := calculateHmac_errors P _ _ _ ho
    cases ht'
  · cases ho
  · rcases ho with ⟨_, _, ho⟩ | ho | ho | ho <;> cases ho

/-- Every round displays the commitment computed from its key and computer
move, whatever is typed afterwards. -/
theorem round_commits (P : Platform) (moves : List String) (turn : Turn moves.length)
    (s : Session) :
    Main.Commits (Main.round P moves turn s).output
      (Main.showHmac
        (HmacCalculator.calculateHmac P (Buffer.toHex turn.key) (moves.get turn.draw)).2) := by
  obtain ⟨rest, hrest⟩ := round_output_menu P moves turn s
  rw [hrest, roundMenu_eq]
  refine ⟨_, _, rest, calculateHmac_errors P _ _, ?_, rfl⟩
  intro o ho
  simp only [List.mem_append, List.mem_map, List.mem_cons, List.mem_nil_iff, or_false] at ho
  rcases ho with ⟨_, _, rfl⟩ | rfl | rfl | rfl <;> exact ⟨_, rfl⟩

/-- A round in which a move is selected reveals its key and computer move. -/
theorem round_reveals (P : Platform) (moves : List String) (turn : Turn moves.length)
    (s : Session) (k : Int) (h : Main.Selects P moves turn.input k) :
    Main.Reveals (Main.round P moves turn s).output (Buffer.toHex turn.key)
      (moves.get turn.draw) := by
  obtain ⟨userMove, _, hround⟩ := round_select P moves turn s k h
  have hout : (Main.round P moves turn s).output
      = Main.beforePrompt P moves turn
        ++ [Output.prompt "Enter your move: ",
            Output.log ("Your move: " ++ userMove),
            Output.log ("Computer move: " ++ moves.get turn.draw),
            Output.log ("HMAC key: " ++ Buffer.toHex turn.key)]
        ++ (GameRules.determineWinnerLog userMove (moves.get turn.draw) moves
          ++ [Output.log ("You "
                ++ GameRules.determineWinner userMove (moves.get turn.draw) moves ++ "!")]
          ++ (s.statistics.updateStatistics
                (GameRules.determineWinner userMove (moves.get turn.draw) moves)
              ).displayStatistics) := by
    rw [hround]
    dsimp only
    rw [roundMenu_eq]
    simp only [List.append_assoc, List.cons_append, List.nil_append]
  exact ⟨_, userMove, _, beforePrompt_no_prompt P moves turn, hout⟩

theorem string_append_left_cancel (p a b : String) (h : p ++ a = p ++ b) : a = b := by
  have hd := congrArg String.data h
  simp only [String.data_append] at hd
  exact String.ext (List.append_cancel_left hd)

/-- The commitment displayed by an output is determined by the output. -/
theorem commits_unique (out : List Output) (c1 c2 : String)
    (h1 : Main.Commits out c1) (h2 : Main.Commits out c2) : c1 = c2 := by
  obtain ⟨e1, m1, r1, he1, _, ho1⟩ := h1
  obtain ⟨e2, m2, r2, he2, _, ho2⟩ := h2
  rw [ho1] at ho2
  simp only [List.append_assoc, List.cons_append, List.nil_append] at ho2
  clear ho1
  induction e1 generalizing e2 with
  | nil =>
    cases e2 with
    | nil =>
      simp only [List.nil_append, List.cons.injEq, Output.log.injEq] at ho2
      exact string_append_left_cancel _ _ _ ho2.1
    | cons o e2 =>
      obtain ⟨t, ht⟩ := he2 o (List.mem_cons_self _ _)
      subst ht
      simp at ho2
  | cons o e1 ih =>
    cases e2 with
    | nil =>
      obtain ⟨t, ht⟩ := he1 o (List.mem_cons_self _ _)
      subst ht
      simp at ho2
    | cons o2 e2 =>
      simp only [List.cons_append, List.cons.injEq] at ho2
      exact ih (fun o ho => he1 o (List.mem_cons_of_mem _ ho)) e2
        (fun o ho => he2 o (List.mem_cons_of_mem _ ho)) ho2.2

/-- The key and computer move revealed by an output are determined by the
output. -/
theorem reveals_unique (out : List Output) (k1 k2 m1 m2 : String)
    (h1 : Main.Reveals out k1 m1) (h2 : Main.Reveals out k2 m2) : k1 = k2 ∧ m1 = m2 := by
  obtain ⟨s1, u1, r1, hs1, ho1⟩ := h1
  obtain ⟨s2, u2, r2, hs2, ho2⟩ := h2
  rw [ho1] at ho2
  simp only [List.append_assoc, List.cons_append, List.nil_append] at ho2
  clear ho1
  induction s1 generalizing s2 with
  | nil =>
    cases s2 with
    | nil =>
      simp only [List.nil_append, List.cons.injEq, Output.log.injEq, true_and] at ho2
      exact ⟨string_append_left_cancel _ _ _ ho2.2.2.1,
        string_append_left_cancel _ _ _ ho2.2.1⟩
    | cons o s2 =>
      simp only [List.nil_append, List.cons_append, List.cons.injEq] at ho2
      exact absurd ho2.1.symm (hs2 o (List.mem_cons_self _ _) _)
  | cons o s1 ih =>
    cases s2 with
    | nil =>
      simp only [List.nil_append, List.cons_append, List.cons.injEq] at ho2
      exact absurd ho2.1 (hs1 o (List.mem_cons_self _ _) _)
    | cons o2 s2 =>
      simp only [List.cons_append, List.cons.injEq] at ho2
      exact ih (fun o ho => hs1 o (List.mem_cons_of_mem _ ho)) s2
        (fun o ho => hs2 o (List.mem_cons_of_mem _ ho)) ho2.2

/-- Claim C11: in every round in which the human selects a move, the key and the
computer move revealed after the selection reproduce the commitment displayed
before it: `calculateHmac(revealed key, revealed computer move)`, as printed, is
the value shown on the `HMAC:` line of that round. -/
theorem round_reveal_reproduces_commitment (P : Platform) (moves : List String)
    (turn : Turn moves.length) (s : Session) (k : Int)
    (hsel : Main.Selects P moves turn.input k) :
    (∃ key computerMove, Main.Reveals (Main.round P moves turn s).output key computerMove)
      ∧ (∃ commitment, Main.Commits (Main.round P moves turn s).output commitment)
      ∧ ∀ key computerMove commitment,
          Main.Reveals (Main.round P moves turn s).output key computerMove →
          Main.Commits (Main.round P moves turn s).output commitment →
          Main.showHmac (HmacCalculator.calculateHmac P key computerMove).2 = commitment := by
  have hr := round_reveals P moves turn s k hsel
  have hc := round_commits P moves turn s
  refine ⟨⟨_, _, hr⟩, ⟨_, hc⟩, ?_⟩
  intro key computerMove commitment hr' hc'
  obtain ⟨hkey, hmove⟩ := reveals_unique _ _ _ _ _ hr' hr
  rw [hkey, hmove]
  exact commits_unique _ _ _ hc hc'

/-- Claim C11, instance: the typed line `1` in the three-move catalog. -/
theorem round_reveal_reproduces_commitment_witness :
    Main.Selects samplePlatform ["Rock", "Paper", "Scissors"] sampleTurn3.input 1
      ∧ (∃ key computerMove,
          Main.Reveals (Main.round samplePlatform ["Rock", "Paper", "Scissors"] sampleTurn3
            (Main.initialSession ["Rock", "Paper", "Scissors"])).output key computerMove)
      ∧ (∃ commitment,
          Main.Commits (Main.round samplePlatform ["Rock", "Paper", "Scissors"] sampleTurn3
            (Main.initialSession ["Rock", "Paper", "Scissors"])).output commitment)
      ∧ ∀ key computerMove commitment,
          Main.Reveals (Main.round samplePlatform ["Rock", "Paper", "Scissors"] sampleTurn3
            (Main.initialSession ["Rock", "Paper", "Scissors"])).output key computerMove →
          Main.Commits (Main.round samplePlatform ["Rock", "Paper", "Scissors"] sampleTurn3
            (Main.initialSession ["Rock", "Paper", "Scissors"])).output commitment →
          Main.showHmac (HmacCalculator.calculateHmac samplePlatform key computerMove).2
            = commitment :=
  ⟨⟨by decide, by decide, by decide, by decide, by decide, by decide⟩,
    round_reveal_reproduces_commitment samplePlatform ["Rock", "Paper", "Scissors"]
      sampleTurn3 (Main.initialSession ["Rock", "Paper", "Scissors"]) 1
      ⟨by decide, by decide, by decide, by decide, by decide, by decide⟩⟩

/-- Claim C12: the commitment is fixed before the input is read and does not depend
on it. For two runs of a round with the same generated key and the same random
draw, whatever the two typed lines are, the same commitment is displayed
before the prompt, and when both lines select a move the same key and
computer move are revealed. -/
theorem round_commit_before_reveal (P : Platform) (moves : List String)
    (t1 t2 : Turn moves.length) (s1 s2 : Session)
    (hkey : t1.key = t2.key) (hdraw : t1.draw = t2.draw) :
    ∃ commitment key computerMove,
      Main.Commits (Main.round P moves t1 s1).output commitment
        ∧ Main.Commits (Main.round P moves t2 s2).output commitment
        ∧ ∀ k1 k2, Main.Selects P moves t1.input k1 → Main.Selects P moves t2.input k2 →
            Main.Reveals (Main.round P moves t1 s1).output key computerMove
              ∧ Main.Reveals (Main.round P moves t2 s2).output key computerMove := by
  refine ⟨_, Buffer.toHex t1.key, moves.get t1.draw, round_commits P moves t1 s1, ?_, ?_⟩
  · rw [hkey, hdraw]
    exact round_commits P moves t2 s2
  · intro k1 k2 h1 h2
    refine ⟨round_reveals P moves t1 s1 k1 h1, ?_⟩
    rw [hkey, hdraw]
    exact round_reveals P moves t2 s2 k2 h2

/-- Claim C12, instance: the same key and draw with the typed lines `1` and `?`. -/
theorem round_commit_before_reveal_witness :
    ∃ commitment key computerMove,
      Main.Commits (Main.round samplePlatform ["Rock", "Paper", "Scissors"] sampleTurn3
          (Main.initialSession ["Rock", "Paper", "Scissors"])).output commitment
        ∧ Main.Commits (Main.round samplePlatform ["Rock", "Paper", "Scissors"]
            { sampleTurn3 with input := "?" }
            (Main.initialSession ["Rock", "Paper", "Scissors"])).output commitment
        ∧ ∀ k1 k2,
            Main.Selects samplePlatform ["Rock", "Paper", "Scissors"] sampleTurn3.input k1 →
            Main.Selects samplePlatform ["Rock", "Paper", "Scissors"] "?" k2 →
            Main.Reveals (Main.round samplePlatform ["Rock", "Paper", "Scissors"] sampleTurn3
                (Main.initialSession ["Rock", "Paper", "Scissors"])).output key computerMove
              ∧ Main.Reveals (Main.round samplePlatform ["Rock", "Paper", "Scissors"]
                  { sampleTurn3 with input := "?" }
                  (Main.initialSession ["Rock", "Paper", "Scissors"])).output key computerMove :=
  round_commit_before_reveal samplePlatform ["Rock", "Paper", "Scissors"] sampleTurn3
    { sampleTurn3 with input := "?" } (Main.initialSession ["Rock", "Paper", "Scissors"])
    (Main.initialSession ["Rock", "Paper", "Scissors"]) rfl rfl

/-! ## Invalid selections, failed commitments and the history -/

/-- The loop, after a round that did not stop, goes on with the next turn. -/
theorem loop_cons_output (P : Platform) (moves : List String) (turn : Turn moves.length)
    (rest : List (Turn moves.length)) (s : Session)
    (hstop : (Main.round P moves turn s).stop = false) :
    (Main.loop P moves (turn :: rest) s).output
      = (Main.round P moves turn s).output
        ++ (Main.loop P moves rest (Main.round P moves turn s).session).output := by
  rw [Main.loop]
  simp only [hstop, Bool.false_eq_true, if_false]

/-- The output of the loop on a non-empty list of turns begins with the output
of the first round. -/
theorem loop_output_head (P : Platform) (moves : List String) (turn : Turn moves.length)
    (rest : List (Turn moves.length)) (s : Session) :
    ∃ tail, (Main.loop P moves (turn :: rest) s).output
      = (Main.round P moves turn s).output ++ tail := by
  rw [Main.loop]
  dsimp only
  split_ifs
  · exact ⟨[], by simp⟩
  · exact ⟨_, rfl⟩

/-- Claim C13 as stated fails: after the line `9`, which is no index of the three-move
catalog, the next iteration does not display the commitment of the round that
was refused; it displays and later reveals another key and computer move. -/
theorem invalid_selection_fresh_commitment :
    Main.InvalidSelection samplePlatform ["Rock", "Paper", "Scissors"] sampleTurnInvalid.input
      ∧ (Main.loop samplePlatform ["Rock", "Paper", "Scissors"]
            [sampleTurnInvalid, sampleTurn3]
            (Main.initialSession ["Rock", "Paper", "Scissors"])).output
          = (Main.round samplePlatform ["Rock", "Paper", "Scissors"] sampleTurnInvalid
              (Main.initialSession ["Rock", "Paper", "Scissors"])).output
            ++ (Main.round samplePlatform ["Rock", "Paper", "Scissors"] sampleTurn3
                (Main.round samplePlatform ["Rock", "Paper", "Scissors"] sampleTurnInvalid
                  (Main.initialSession ["Rock", "Paper", "Scissors"])).session).output
      ∧ Main.Commits
          (Main.round samplePlatform ["Rock", "Paper", "Scissors"] sampleTurnInvalid
            (Main.initialSession ["Rock", "Paper", "Scissors"])).output
          "0000000000000000000000000000000000000000000000000000000000000000:Rock"
      ∧ ¬ Main.Commits
          (Main.round samplePlatform ["Rock", "Paper", "Scissors"] sampleTurn3
            (Main.round samplePlatform ["Rock", "Paper", "Scissors"] sampleTurnInvalid
              (Main.initialSession ["Rock", "Paper", "Scissors"])).session).output
          "0000000000000000000000000000000000000000000000000000000000000000:Rock"
      ∧ Main.Reveals
          (Main.round samplePlatform ["Rock", "Paper", "Scissors"] sampleTurn3
            (Main.round samplePlatform ["Rock", "Paper", "Scissors"] sampleTurnInvalid
              (Main.initialSession ["Rock", "Paper", "Scissors"])).session).output
          "abababababababababababababababababababababababababababababababab" "Paper" := by
  refine ⟨⟨by decide, by decide, by decide, Or.inr ⟨9, by decide, Or.inr (by decide)⟩⟩,
    by decide, ?_, ?_, ?_⟩
  · have h := round_commits samplePlatform ["Rock", "Paper", "Scissors"] sampleTurnInvalid
      (Main.initialSession ["Rock", "Paper", "Scissors"])
    have he : Main.showHmac (HmacCalculator.calculateHmac samplePlatform
        (Buffer.toHex sampleTurnInvalid.key)
        (["Rock", "Paper", "Scissors"].get sampleTurnInvalid.draw)).2
        = "0000000000000000000000000000000000000000000000000000000000000000:Rock" := by
      decide
    rw [he] at h
    exact h
  · intro hc
    have h := round_commits samplePlatform ["Rock", "Paper", "Scissors"] sampleTurn3
      (Main.round samplePlatform ["Rock", "Paper", "Scissors"] sampleTurnInvalid
        (Main.initialSession ["Rock", "Paper", "Scissors"])).session
    have heq := commits_unique _ _ _ hc h
    revert heq
    decide
  · have h := round_reveals samplePlatform ["Rock", "Paper", "Scissors"] sampleTurn3
      (Main.round samplePlatform ["Rock", "Paper", "Scissors"] sampleTurnInvalid
        (Main.initialSession ["Rock", "Paper", "Scissors"])).session 1
      ⟨by decide, by decide, by decide, by decide, by decide, by decide⟩
    have hk : Buffer.toHex sampleTurn3.key
        = "abababababababababababababababababababababababababababababababab" := by
      decide
    have hm : ["Rock", "Paper", "Scissors"].get sampleTurn3.draw = "Paper" := by
      decide
    rw [hk, hm] at h
    exact h

/-- Claim C13, amended: when the typed line is none of `0`, `?`, `!` and does not map
to a catalog index, the round prints the invalid-move line and the loop goes on
with statistics and history unchanged; the retry is a new iteration, which
displays the commitment computed from its own fresh key and draw. -/
theorem invalid_selection_reprompts (P : Platform) (moves : List String)
    (turn next : Turn moves.length) (rest : List (Turn moves.length)) (s : Session)
    (hinv : Main.InvalidSelection P moves turn.input) :
    (Main.round P moves turn s).session.statistics = s.statistics
      ∧ (Main.round P moves turn s).session.gameHistory = s.gameHistory
      ∧ (Main.round P moves turn s).stop = false
      ∧ (Main.round P moves turn s).output
          = Main.roundMenu P moves turn
            ++ [Output.log "Invalid move. Please choose a valid move."]
      ∧ (∃ tail, (Main.loop P moves (turn :: next :: rest) s).output
          = (Main.round P moves turn s).output
            ++ (Main.round P moves next (Main.round P moves turn s).session).output
            ++ tail)
      ∧ Main.Commits (Main.round P moves next (Main.round P moves turn s).session).output
          (Main.showHmac
            (HmacCalculator.calculateHmac P (Buffer.toHex next.key) (moves.get next.draw)).2) := by
  have hround := round_invalid P moves turn s hinv
  have hstop : (Main.round P moves turn s).stop = false := by rw [hround]
  refine ⟨by rw [hround], by rw [hround], hstop, by rw [hround], ?_, round_commits _ _ _ _⟩
  obtain ⟨tail, htail⟩ := loop_output_head P moves next rest (Main.round P moves turn s).session
  refine ⟨tail, ?_⟩
  rw [loop_cons_output P moves turn (next :: rest) s hstop, htail, List.append_assoc]

/-- Claim C13, amended, instance: the line `9` followed by a fresh turn. -/
theorem invalid_selection_reprompts_witness :
    Main.InvalidSelection samplePlatform ["Rock", "Paper", "Scissors"] sampleTurnInvalid.input
      ∧ (Main.round samplePlatform ["Rock", "Paper", "Scissors"] sampleTurnInvalid
          (Main.initialSession ["Rock", "Paper", "Scissors"])).session.statistics
        = (Main.initialSession ["Rock", "Paper", "Scissors"]).statistics
      ∧ (Main.round samplePlatform ["Rock", "Paper", "Scissors"] sampleTurnInvalid
          (Main.initialSession ["Rock", "Paper", "Scissors"])).session.gameHistory
        = (Main.initialSession ["Rock", "Paper", "Scissors"]).gameHistory
      ∧ (Main.round samplePlatform ["Rock", "Paper", "Scissors"] sampleTurnInvalid
          (Main.initialSession ["Rock", "Paper", "Scissors"])).stop = false :=
  have h := invalid_selection_reprompts samplePlatform ["Rock", "Paper", "Scissors"]
    sampleTurnInvalid sampleTurn3 [] (Main.initialSession ["Rock", "Paper", "Scissors"])
    ⟨by decide, by decide, by decide, Or.inr ⟨9, by decide, Or.inr (by decide)⟩⟩
  ⟨⟨by decide, by decide, by decide, Or.inr ⟨9, by decide, Or.inr (by decide)⟩⟩,
    h.1, h.2.1, h.2.2.1⟩

/-- Every iteration of the loop counts as one more round, whatever is typed. -/
theorem round_rounds (P : Platform) (moves : List String) (turn : Turn moves.length)
    (s : Session) : (Main.round P moves turn s).session.rounds = s.rounds + 1 := by
  unfold Main.round
  dsimp only
  split_ifs
  · rfl
  · rfl
  · rfl
  · split
    · rfl
    · split <;> rfl

/-- Claim C15: for every numeric selection `k` with `1 ≤ k ≤ moves.length`, the round
takes `userMove = moves[k-1]`, computes
`result = determineWinner(userMove, computerMove, moves)` and appends exactly the
entry of `computerMove`, `userMove`, `result` at the end of `gameHistory`; the
lines `0`, `?`, `!` and invalid selections leave `gameHistory` as it was. -/
theorem round_history (P : Platform) (moves : List String) (turn : Turn moves.length)
    (s : Session) :
    (∀ k, Main.Selects P moves turn.input k →
        ∃ userMove, moves[(k - 1).toNat]? = some userMove
          ∧ (Main.round P moves turn s).session.gameHistory
            = s.gameHistory ++
              [{ computerMove := moves.get turn.draw, userMove := userMove,
                 result := GameRules.determineWinner userMove (moves.get turn.draw) moves }])
      ∧ ((turn.input = "0" ∨ turn.input = "?" ∨ turn.input = "!"
            ∨ Main.InvalidSelection P moves turn.input) →
          (Main.round P moves turn s).session.gameHistory = s.gameHistory) := by
  constructor
  · intro k hsel
    obtain ⟨userMove, hu, hround⟩ := round_select P moves turn s k hsel
    exact ⟨userMove, hu, by rw [hround]⟩
  · rintro (h | h | h | h)
    · rw [round_exit P moves turn s h]
    · rw [round_help P moves turn s h]
    · rw [round_show_history P moves turn s h]
    · rw [round_invalid P moves turn s h]

/-- Claim C15, instance: the typed line `1` against the draw `Paper`. -/
theorem round_history_witness :
    Main.Selects samplePlatform ["Rock", "Paper", "Scissors"] sampleTurn3.input 1
      ∧ ∃ userMove, ["Rock", "Paper", "Scissors"][((1 : Int) - 1).toNat]? = some userMove
        ∧ (Main.round samplePlatform ["Rock", "Paper", "Scissors"] sampleTurn3
            (Main.initialSession ["Rock", "Paper", "Scissors"])).session.gameHistory
          = (Main.initialSession ["Rock", "Paper", "Scissors"]).gameHistory ++
            [{ computerMove := ["Rock", "Paper", "Scissors"].get sampleTurn3.draw,
               userMove := userMove,
               result := GameRules.determineWinner userMove
                 (["Rock", "Paper", "Scissors"].get sampleTurn3.draw)
                 ["Rock", "Paper", "Scissors"] }] :=
  ⟨⟨by decide, by decide, by decide, by decide, by decide, by decide⟩,
    (round_history samplePlatform ["Rock", "Paper", "Scissors"] sampleTurn3
      (Main.initialSession ["Rock", "Paper", "Scissors"])).1 1
      ⟨by decide, by decide, by decide, by decide, by decide, by decide⟩⟩

/-! ## The session invariant -/

theorem determineWinner_of_mem (moves : List String) (x y : String)
    (hx : x ∈ moves) (hy : y ∈ moves) :
    GameRules.determineWinner x y moves = "Win"
      ∨ GameRules.determineWinner x y moves = "Lose"
      ∨ GameRules.determineWinner x y moves = "Draw" := by
  unfold GameRules.determineWinner
  simp only [includes, hx, hy, decide_True, Bool.not_true, Bool.or_self,
    Bool.false_eq_true, if_false]
  split
  · exact Or.inr (Or.inr rfl)
  · split
    · split
      · exact Or.inl rfl
      · exact Or.inr (Or.inl rfl)
    · exact Or.inr (Or.inl rfl)

theorem countResult_append (result : String) (history : List HistoryEntry)
    (e : HistoryEntry) :
    countResult result (history ++ [e])
      = countResult result history + (if e.result = result then 1 else 0) := by
  unfold countResult
  rw [List.filter_append, List.length_append]
  congr 1
  by_cases h : e.result = result <;> simp [List.filter, h]

theorem updateStatistics_win (st : Statistics) :
    st.updateStatistics "Win" = { st with wins := st.wins + 1 } := by
  unfold Statistics.updateStatistics
  rw [if_pos rfl]

theorem updateStatistics_lose (st : Statistics) :
    st.updateStatistics "Lose" = { st with losses := st.losses + 1 } := by
  unfold Statistics.updateStatistics
  rw [if_neg (by decide), if_pos rfl]

theorem updateStatistics_draw (st : Statistics) :
    st.updateStatistics "Draw" = { st with draws := st.draws + 1 } := by
  unfold Statistics.updateStatistics
  rw [if_neg (by decide), if_neg (by decide), if_pos rfl]

theorem updateStatistics_other (st : Statistics) (r : String)
    (hw : r ≠ "Win") (hl : r ≠ "Lose") (hd : r ≠ "Draw") :
    st.updateStatistics r = st := by
  unfold Statistics.updateStatistics
  rw [if_neg hw, if_neg hl, if_neg hd]

/-- Recording a round with one of the three counted results keeps the tallies
in step with the history. -/
theorem tallied_push (st : Statistics) (history : List HistoryEntry)
    (computerMove userMove r : String)
    (hr : r = "Win" ∨ r = "Lose" ∨ r = "Draw") (h : Tallied st history) :
    Tallied (st.updateStatistics r)
      (history ++ [{ computerMove := computerMove, userMove := userMove, result := r }]) := by
  obtain ⟨hw, hl, hd, hall⟩ := h
  have hmem : ∀ e ∈ history ++
      [({ computerMove := computerMove, userMove := userMove, result := r } : HistoryEntry)],
      e.result = "Win" ∨ e.result = "Lose" ∨ e.result = "Draw" := by
    intro e he
    rcases List.mem_append.mp he with he | he
    · exact hall e he
    · rw [List.mem_singleton] at he
      subst he
      exact hr
  have hwl : ¬ ("Win" = "Lose") := by decide
  have hwd : ¬ ("Win" = "Draw") := by decide
  have hlw : ¬ ("Lose" = "Win") := by decide
  have hld : ¬ ("Lose" = "Draw") := by decide
  have hdw : ¬ ("Draw" = "Win") := by decide
  have hdl : ¬ ("Draw" = "Lose") := by decide
  refine ⟨?_, ?_, ?_, hmem⟩
  all_goals
    rw [countResult_append]
    rcases hr with rfl | rfl | rfl
    · rw [updateStatistics_win]
      simp only [if_true, if_false, hwl, hwd, hw, hl, hd, Nat.add_zero]
    · rw [updateStatistics_lose]
      simp only [if_true, if_false, hlw, hld, hw, hl, hd, Nat.add_zero]
    · rw [updateStatistics_draw]
      simp only [if_true, if_false, hdw, hdl, hw, hl, hd, Nat.add_zero]

theorem tallied_sum (st : Statistics) (history : List HistoryEntry) (h : Tallied st history) :
    st.wins + st.losses + st.draws = history.length := by
  obtain ⟨hw, hl, hd, hall⟩ := h
  rw [hw, hl, hd]
  clear hw hl hd
  induction history with
  | nil => rfl
  | cons e rest ih =>
    have hrest := ih (fun x hx => hall x (List.mem_cons_of_mem _ hx))
    have he := hall e (List.mem_cons_self _ _)
    have hwl : ¬ ("Win" = "Lose") := by decide
    have hwd : ¬ ("Win" = "Draw") := by decide
    have hlw : ¬ ("Lose" = "Win") := by decide
    have hld : ¬ ("Lose" = "Draw") := by decide
    have hdw : ¬ ("Draw" = "Win") := by decide
    have hdl : ¬ ("Draw" = "Lose") := by decide
    unfold countResult at hrest ⊢
    rcases he with he | he | he
    all_goals
      simp only [List.filter, he, hwl, hwd, hlw, hld, hdw, hdl, decide_True, decide_False,
        List.length_cons]
      omega

/-- Every typed line falls under exactly the branches of lines 162-175. -/
theorem input_cases (P : Platform) (moves : List String) (input : String) :
    input = "0" ∨ input = "?" ∨ input = "!" ∨ Main.InvalidSelection P moves input
      ∨ ∃ k, Main.Selects P moves input k := by
  by_cases h0 : input = "0"
  · exact Or.inl h0
  by_cases h1 : input = "?"
  · exact Or.inr (Or.inl h1)
  by_cases h2 : input = "!"
  · exact Or.inr (Or.inr (Or.inl h2))
  right; right; right
  cases hp : P.parseInt input with
  | none => exact Or.inl ⟨h0, h1, h2, Or.inl hp⟩
  | some k =>
    by_cases hk : k < 1 ∨ k > moves.length
    · exact Or.inl ⟨h0, h1, h2, Or.inr ⟨k, hp, hk⟩⟩
    · exact Or.inr ⟨k, h0, h1, h2, hp, by omega, by omega⟩

theorem round_tallied (P : Platform) (moves : List String) (turn : Turn moves.length)
    (s : Session) (h : Tallied s.statistics s.gameHistory) :
    Tallied (Main.round P moves turn s).session.statistics
      (Main.round P moves turn s).session.gameHistory := by
  rcases input_cases P moves turn.input with h0 | h0 | h0 | h0 | ⟨k, hsel⟩
  · rw [round_exit P moves turn s h0]
    exact h
  · rw [round_help P moves turn s h0]
    exact h
  · rw [round_show_history P moves turn s h0]
    exact h
  · rw [round_invalid P moves turn s h0]
    exact h
  · obtain ⟨userMove, hu, hround⟩ := round_select P moves turn s k hsel
    rw [hround]
    have hum : userMove ∈ moves := List.getElem?_mem hu
    have hcm : moves.get turn.draw ∈ moves := List.get_mem _ _ _
    exact tallied_push _ _ _ _ _ (determineWinner_of_mem moves _ _ hum hcm) h

theorem loop_tallied (P : Platform) (moves : List String) (turns : List (Turn moves.length))
    (s s' : Session) (h : Tallied s.statistics s.gameHistory)
    (hs : (Main.loop P moves turns s).session = some s') :
    Tallied s'.statistics s'.gameHistory := by
  induction turns generalizing s with
  | nil =>
    rw [Main.loop] at hs
    cases hs
    exact h
  | cons turn rest ih =>
    rw [Main.loop] at hs
    dsimp only at hs
    split_ifs at hs with hstop
    · cases hs
      exact round_tallied P moves turn s h
    · exact ih _ (round_tallied P moves turn s h) hs

theorem main_tallied (P : Platform) (args : List String) (turns : List (Turn args.length))
    (s : Session) (hs : (Main.main P args turns).session = some s) :
    Tallied s.statistics s.gameHistory := by
  unfold Main.main at hs
  by_cases hg : (args.length < 3 || (setOfArray args).length != args.length) = true
  · rw [if_pos hg] at hs
    cases hs
  · rw [if_neg hg] at hs
    refine loop_tallied P args turns _ s ?_ hs
    exact ⟨rfl, rfl, rfl, fun e he => by cases he⟩

/-- Claim C19: starting from zero tallies and an empty history, after any sequence of
inputs the counters `wins`, `losses`, `draws` are the numbers of history entries
with result `'Win'`, `'Lose'`, `'Draw'`, their sum is the length of the history,
and no entry has result `'Invalid'`; `updateStatistics(r)` adds 1 to exactly the
counter named by `r` and changes nothing when `r` is none of the three. -/
theorem main_tallies (P : Platform) (args : List String) (turns : List (Turn args.length)) :
    (∀ s, (Main.main P args turns).session = some s →
        s.statistics.wins = countResult "Win" s.gameHistory
          ∧ s.statistics.losses = countResult "Lose" s.gameHistory
          ∧ s.statistics.draws = countResult "Draw" s.gameHistory
          ∧ s.statistics.wins + s.statistics.losses + s.statistics.draws
            = s.gameHistory.length
          ∧ ∀ e ∈ s.gameHistory, e.result ≠ "Invalid")
      ∧ (∀ st : Statistics,
          st.updateStatistics "Win" = { st with wins := st.wins + 1 }
            ∧ st.updateStatistics "Lose" = { st with losses := st.losses + 1 }
            ∧ st.updateStatistics "Draw" = { st with draws := st.draws + 1 }
            ∧ ∀ r, r ≠ "Win" → r ≠ "Lose" → r ≠ "Draw" → st.updateStatistics r = st) := by
  constructor
  · intro s hs
    have h := main_tallied P args turns s hs
    refine ⟨h.1, h.2.1, h.2.2.1, tallied_sum _ _ h, ?_⟩
    intro e he hinv
    rcases h.2.2.2 e he with hr | hr | hr <;> rw [hr] at hinv <;> revert hinv <;> decide
  · intro st
    exact ⟨updateStatistics_win st, updateStatistics_lose st, updateStatistics_draw st,
      updateStatistics_other st⟩

/-- Claim C19, instance: one round played in the three-move catalog. -/
theorem main_tallies_witness :
    (Main.main samplePlatform ["Rock", "Paper", "Scissors"] [sampleTurn3]).session
        = some
            { helpTable := HelpTable.new ["Rock", "Paper", "Scissors"],
              statistics := { wins := 1, losses := 0, draws := 0 },
              gameHistory := [{ computerMove := "Paper", userMove := "Rock", result := "Win" }],
              rounds := 1 }
      ∧ (1 : Nat) = countResult "Win"
          [{ computerMove := "Paper", userMove := "Rock", result := "Win" }]
      ∧ (1 : Nat) + 0 + 0
        = [({ computerMove := "Paper", userMove := "Rock", result := "Win" } : HistoryEntry)].length :=
  have h := (main_tallies samplePlatform ["Rock", "Paper", "Scissors"] [sampleTurn3]).1
    { helpTable := HelpTable.new ["Rock", "Paper", "Scissors"],
      statistics := { wins := 1, losses := 0, draws := 0 },
      gameHistory := [{ computerMove := "Paper", userMove := "Rock", result := "Win" }],
      rounds := 1 } (by decide)
  ⟨by decide, h.1, h.2.2.2.1⟩

/-! ## Rounds played on an accepted catalog -/

/-- A round never removes or changes a history entry. -/
theorem round_history_extends (P : Platform) (moves : List String)
    (turn : Turn moves.length) (s : Session) :
    ∃ more, (Main.round P moves turn s).session.gameHistory = s.gameHistory ++ more := by
  rcases input_cases P moves turn.input with h0 | h0 | h0 | h0 | ⟨k, hsel⟩
  · exact ⟨[], by rw [round_exit P moves turn s h0, List.append_nil]⟩
  · exact ⟨[], by rw [round_help P moves turn s h0, List.append_nil]⟩
  · exact ⟨[], by rw [round_show_history P moves turn s h0, List.append_nil]⟩
  · exact ⟨[], by rw [round_invalid P moves turn s h0, List.append_nil]⟩
  · obtain ⟨userMove, _, hround⟩ := round_select P moves turn s k hsel
    exact ⟨_, by rw [hround]⟩

/-- The loop only adds rounds and history entries to the session it starts
from. -/
theorem loop_progress (P : Platform) (moves : List String)
    (turns : List (Turn moves.length)) (s : Session) :
    ∃ s' more, (Main.loop P moves turns s).session = some s'
      ∧ s.rounds ≤ s'.rounds
      ∧ s'.gameHistory = s.gameHistory ++ more := by
  induction turns generalizing s with
  | nil => exact ⟨s, [], rfl, le_refl _, by rw [List.append_nil]⟩
  | cons turn rest ih =>
    have hr := round_rounds P moves turn s
    obtain ⟨m1, hm1⟩ := round_history_extends P moves turn s
    rw [Main.loop]
    dsimp only
    split_ifs with hstop
    · exact ⟨_, m1, rfl, by omega, hm1⟩
    · obtain ⟨s', m2, h1, h2, h3⟩ := ih (Main.round P moves turn s).session
      exact ⟨s', m1 ++ m2, h1, by omega, by rw [h3, hm1, List.append_assoc]⟩

/-- The loop on a non-empty list of turns plays the first round: the session it
ends in counts that round and keeps what the round recorded. -/
theorem loop_cons_progress (P : Platform) (moves : List String) (turn : Turn moves.length)
    (rest : List (Turn moves.length)) (s : Session) :
    ∃ s' more, (Main.loop P moves (turn :: rest) s).session = some s'
      ∧ (Main.round P moves turn s).session.rounds ≤ s'.rounds
      ∧ s'.gameHistory = (Main.round P moves turn s).session.gameHistory ++ more := by
  rw [Main.loop]
  dsimp only
  split_ifs with hstop
  · exact ⟨_, [], rfl, le_refl _, by rw [List.append_nil]⟩
  · exact loop_progress P moves rest (Main.round P moves turn s).session

/-- On an accepted argument list, `Main.main` plays the first turn supplied as a
round of the loop. -/
theorem main_plays_first_round (P : Platform) (args : List String)
    (turn : Turn args.length) (rest : List (Turn args.length))
    (hlen : 3 ≤ args.length) (hnd : args.Nodup) :
    ∃ s, (Main.main P args (turn :: rest)).session = some s
      ∧ 1 ≤ s.rounds
      ∧ (∃ tail, (Main.main P args (turn :: rest)).output
          = HelpTable.generateTableLog args
            ++ (Main.round P args turn (Main.initialSession args)).output ++ tail)
      ∧ ∀ k, Main.Selects P args turn.input k →
          ∃ userMove more, args[(k - 1).toNat]? = some userMove
            ∧ s.gameHistory
              = { computerMove := args.get turn.draw, userMove := userMove,
                  result := GameRules.determineWinner userMove (args.get turn.draw) args }
                :: more := by
  have hg : ¬ ((args.length < 3 || (setOfArray args).length != args.length) = true) := by
    rw [main_guard_iff]
    rintro (h | h)
    · omega
    · exact h hnd
  obtain ⟨s', more, hs', hrounds, hhist⟩ :=
    loop_cons_progress P args turn rest (Main.initialSession args)
  obtain ⟨tail, htail⟩ := loop_output_head P args turn rest (Main.initialSession args)
  have hmain : Main.main P args (turn :: rest)
      = { Main.loop P args (turn :: rest) (Main.initialSession args) with
          output := HelpTable.generateTableLog args
            ++ (Main.loop P args (turn :: rest) (Main.initialSession args)).output } := by
    unfold Main.main
    rw [if_neg hg]
    rfl
  have hr := round_rounds P args turn (Main.initialSession args)
  refine ⟨s', by rw [hmain]; exact hs', by omega, ⟨tail, ?_⟩, ?_⟩
  · rw [hmain]
    dsimp only
    rw [htail, List.append_assoc]
  · intro k hsel
    obtain ⟨userMove, hu, hround⟩ := round_select P args turn (Main.initialSession args) k hsel
    refine ⟨userMove, more, hu, ?_⟩
    rw [hhist, hround]
    rfl

/-- Claim C10, amended: the validation of `Main.main` does not look at the parity of
the length. An argument list of even length is rejected (usage lines, exit
status 1, nothing built) if and only if it has fewer than 3 entries or a
repeated name; an even-length list of at least 4 pairwise distinct names is
accepted, the help table is built from it, and rounds are played on it: the
first turn supplied is run as a round of the loop, its output follows the output
of the table construction, and a move selected in it is resolved by
`determineWinner` on this catalog and recorded. -/
theorem main_even_catalog (P : Platform) (args : List String)
    (turns : List (Turn args.length)) (heven : args.length % 2 = 0) :
    (Main.main P args turns
        = { output := [Output.log "Invalid input. Please provide at least 3 unique moves.",
                       Output.log "Example: node game.js Rock Paper Scissors"],
            status := Status.exited 1,
            session := none }
      ↔ (args.length < 3 ∨ ¬ args.Nodup))
    ∧ (4 ≤ args.length → args.Nodup →
        ∃ s, (Main.main P args turns).session = some s
          ∧ s.helpTable = HelpTable.new args
          ∧ ∀ code, (Main.main P args turns).status ≠ Status.exited code)
    ∧ (4 ≤ args.length → args.Nodup → ∀ turn rest, turns = turn :: rest →
        ∃ s, (Main.main P args turns).session = some s
          ∧ 1 ≤ s.rounds
          ∧ (∃ tail, (Main.main P args turns).output
              = HelpTable.generateTableLog args
                ++ (Main.round P args turn (Main.initialSession args)).output ++ tail)
          ∧ ∀ k, Main.Selects P args turn.input k →
              ∃ userMove more, args[(k - 1).toNat]? = some userMove
                ∧ s.gameHistory
                  = { computerMove := args.get turn.draw, userMove := userMove,
                      result := GameRules.determineWinner userMove (args.get turn.draw) args }
                    :: more) := by
  refine ⟨main_eq_rejected_iff P args turns,
    fun hlen hnd => main_accepted P args turns (by omega) hnd, ?_⟩
  intro hlen hnd turn rest hturns
  subst hturns
  exact main_plays_first_round P args turn rest (by omega) hnd

/-- Claim C10, amended, instance: four distinct names and one turn, in which the
line `1` selects `Rock` against the draw `Paper`. -/
theorem main_even_catalog_witness :
    ["Rock", "Paper", "Scissors", "Lizard"].length % 2 = 0
      ∧ 4 ≤ ["Rock", "Paper", "Scissors", "Lizard"].length
      ∧ ["Rock", "Paper", "Scissors", "Lizard"].Nodup
      ∧ Main.Selects samplePlatform ["Rock", "Paper", "Scissors", "Lizard"] sampleTurn4.input 1
      ∧ ∃ s, (Main.main samplePlatform ["Rock", "Paper", "Scissors", "Lizard"]
            [sampleTurn4]).session = some s
          ∧ 1 ≤ s.rounds
          ∧ (∃ tail, (Main.main samplePlatform ["Rock", "Paper", "Scissors", "Lizard"]
                [sampleTurn4]).output
              = HelpTable.generateTableLog ["Rock", "Paper", "Scissors", "Lizard"]
                ++ (Main.round samplePlatform ["Rock", "Paper", "Scissors", "Lizard"]
                    sampleTurn4
                    (Main.initialSession ["Rock", "Paper", "Scissors", "Lizard"])).output
                ++ tail)
          ∧ ∀ k, Main.Selects samplePlatform ["Rock", "Paper", "Scissors", "Lizard"]
                sampleTurn4.input k →
              ∃ userMove more,
                ["Rock", "Paper", "Scissors", "Lizard"][(k - 1).toNat]? = some userMove
                ∧ s.gameHistory
                  = { computerMove := ["Rock", "Paper", "Scissors", "Lizard"].get sampleTurn4.draw,
                      userMove := userMove,
                      result := GameRules.determineWinner userMove
                        (["Rock", "Paper", "Scissors", "Lizard"].get sampleTurn4.draw)
                        ["Rock", "Paper", "Scissors", "Lizard"] }
                    :: more :=
  ⟨by decide, by decide, by decide,
    ⟨by decide, by decide, by decide, by decide, by decide, by decide⟩,
    (main_even_catalog samplePlatform ["Rock", "Paper", "Scissors", "Lizard"] [sampleTurn4]
      (by decide)).2.2 (by decide) (by decide) sampleTurn4 [] rfl⟩

end Game
